import Mathlib

/-!
# instacart-cli: request construction, response classification, URL extraction

A shallow embedding of `pkg/instacart/client.go`, `pkg/instacart/types.go`,
`cmd/recipe.go` and `cmd/list.go`.

* Go strings are `String`; algorithms on them run over `List Char`.
* `map[string]any` is an association list `GoMap` read with `GoMap.get` and
  written with `GoMap.set`; a map literal lists its (distinct) keys in order.
* `any` is the sum type `Value`.
* The standard-library calls whose behaviour the repository does not define
  (the HTTP round trip, `json.Unmarshal`, `os.ReadFile`, `strconv.ParseFloat`,
  `fmt.Sscanf`, the clock) are fields of `World` / `Env`, so every theorem
  holds for whatever they do.
* Side effects are explicit: `callTool` returns, next to its result, the list
  of requests it handed to `HTTPClient.Do`.
-/

namespace Instacart

/-! ## Strings -/

/-- The double quote character, U+0022. -/
def dquote : Char := Char.ofNat 34

/-- The single quote character, U+0027. -/
def squote : Char := Char.ofNat 39

/-- The backslash character, U+005C. -/
def backslash : Char := Char.ofNat 92

/-- Go `strings.HasPrefix(s, p)`. -/
def hasPrefix (s p : String) : Bool := p.toList.isPrefixOf s.toList

/-- Go `unicode.IsSpace`: the Latin-1 spaces `\t \n \v \f \r`, space, U+0085,
U+00A0, and the other code points with the White_Space property. -/
def isSpace (c : Char) : Bool :=
  let n := c.toNat
  (9 ≤ n && n ≤ 13) || n == 32 || n == 0x85 || n == 0xA0 || n == 0x1680 ||
  (0x2000 ≤ n && n ≤ 0x200A) || n == 0x2028 || n == 0x2029 || n == 0x202F ||
  n == 0x205F || n == 0x3000

/-- Go `strings.TrimSpace` on the characters of a string: leading and trailing
white space removed. -/
def trimSpaceChars (s : List Char) : List Char :=
  ((s.dropWhile isSpace).reverse.dropWhile isSpace).reverse

/-- Go `strings.TrimSpace`. -/
def trimSpace (s : String) : String := String.mk (trimSpaceChars s.toList)

/-- Go `strings.SplitN(s, ",", n)` for `n ≥ 0` on the characters of `s`: at most
`n` pieces, the last one the unsplit remainder; no piece for `n = 0`. -/
def splitNComma : Nat → List Char → List (List Char)
  | 0, _ => []
  | 1, s => [s]
  | n + 2, s =>
    match s.span (fun c => c != ',') with
    | (_, []) => [s]
    | (piece, _ :: rest) => piece :: splitNComma (n + 1) rest

/-- Byte-wise string order (`strings.Compare(a, b) < 0`), which on valid UTF-8
is the lexicographic order of the code points. -/
def lessChars : List Char → List Char → Bool
  | _, [] => false
  | [], _ :: _ => true
  | a :: as, b :: bs => a.toNat < b.toNat || (a.toNat == b.toNat && lessChars as bs)

/-! ## Values -/

/-- A Go `float64`: not-a-number, an infinity, or the finite value
`± mant · 10 ^ exp` (every finite binary float is such a decimal). -/
inductive Float64 where
  | nan
  | inf (neg : Bool)
  | fin (neg : Bool) (mant : Nat) (exp : Int)
  deriving DecidableEq, Repr

/-- The Go comparison `f > 0`: false for NaN, for zero and for negatives. -/
def Float64.gtZero : Float64 → Bool
  | .nan => false
  | .inf neg => !neg
  | .fin neg mant _ => !neg && decide (0 < mant)

/-- A Go value of type `any` as this program builds or receives it: `nil`, a
bool, an `int`, a `float64`, a string, a slice, or a `map[string]any`. -/
inductive Value where
  | null
  | bool (b : Bool)
  | int (i : Int)
  | float (f : Float64)
  | str (s : String)
  | arr (xs : List Value)
  | obj (kvs : List (String × Value))

/-- A Go `map[string]any`. -/
abbrev GoMap := List (String × Value)

/-- The map read `m[k]`: `none` when the key is absent. -/
def GoMap.get (m : GoMap) (k : String) : Option Value := List.lookup k m

/-- The map write `m[k] = v`. -/
def GoMap.set : GoMap → String → Value → GoMap
  | [], k, v => [(k, v)]
  | (k', v') :: m, k, v => if k' = k then (k, v) :: m else (k', v') :: GoMap.set m k v

/-! ## `json.Marshal` -/

/-- One lower-case hexadecimal digit. -/
def hexDigit (n : Nat) : Char := Nat.digitChar (n % 16)

/-- The escape `\u00XY` of a code point below 256. -/
def escapeU00 (n : Nat) : List Char :=
  [backslash, 'u', '0', '0', hexDigit (n / 16), hexDigit n]

/-- How `encoding/json` writes one character of a string (HTML escaping on, as
`json.Marshal` has it): `"` and `\` get a backslash; `\b \f \n \r \t` their short
escape; other control characters, `<`, `>` and `&` become `\u00XY`; U+2028 and
U+2029 become `\u2028` and `\u2029`; everything else is written as is. -/
def escapeChar (c : Char) : List Char :=
  let n := c.toNat
  if n == 34 then [backslash, dquote]
  else if n == 92 then [backslash, backslash]
  else if n == 8 then [backslash, 'b']
  else if n == 12 then [backslash, 'f']
  else if n == 10 then [backslash, 'n']
  else if n == 13 then [backslash, 'r']
  else if n == 9 then [backslash, 't']
  else if n < 32 || n == 60 || n == 62 || n == 38 then escapeU00 n
  else if n == 0x2028 then [backslash, 'u', '2', '0', '2', '8']
  else if n == 0x2029 then [backslash, 'u', '2', '0', '2', '9']
  else [c]

/-- A JSON string literal: the escaped characters between double quotes. -/
def quoteJSON (s : String) : List Char :=
  dquote :: (s.toList.flatMap escapeChar ++ [dquote])

/-- The decimal digits of `mant` without trailing zeros, and how many zeros
were dropped. `fuel` bounds the number of zeros looked at. -/
def stripZeros : Nat → Nat → Nat → Nat × Nat
  | 0, mant, dropped => (mant, dropped)
  | fuel + 1, mant, dropped =>
    if mant ≠ 0 ∧ mant % 10 = 0 then stripZeros fuel (mant / 10) (dropped + 1)
    else (mant, dropped)

/-- The `%e` exponent as `encoding/json` leaves it: a sign and at least two
digits, except that `e-0X` is shortened to `e-X`. -/
def fmtExponent (x : Int) : List Char :=
  let digits := (toString x.natAbs).toList
  if x < 0 then
    'e' :: '-' :: digits
  else
    'e' :: '+' :: (if digits.length < 2 then '0' :: digits else digits)

/-- The text `encoding/json` writes for a finite `float64` whose shortest
decimal form is `± mant · 10 ^ exp`: `strconv`'s shortest `%f` form, or the
`%e` form when the magnitude is below `1e-6` or at least `1e21`. -/
def fmtFinite (neg : Bool) (mant : Nat) (exp : Int) : List Char :=
  let sign : List Char := if neg then ['-'] else []
  if mant = 0 then sign ++ ['0']
  else
    let (m, dropped) := stripZeros mant mant 0
    let ds := (toString m).toList
    let nd : Int := ds.length
    let dp : Int := nd + (exp + dropped)
    if dp - 1 < -6 ∨ 21 ≤ dp - 1 then
      sign ++ ds.take 1 ++ (if ds.length > 1 then '.' :: ds.drop 1 else []) ++ fmtExponent (dp - 1)
    else if dp ≤ 0 then
      sign ++ ['0', '.'] ++ List.replicate (-dp).toNat '0' ++ ds
    else if nd ≤ dp then
      sign ++ ds ++ List.replicate (dp - nd).toNat '0'
    else
      sign ++ ds.take dp.toNat ++ ['.'] ++ ds.drop dp.toNat

/-- The text `encoding/json` writes for a `float64`; NaN and the infinities
are an `UnsupportedValueError`, here `none`. -/
def Float64.marshal : Float64 → Option (List Char)
  | .nan => none
  | .inf _ => none
  | .fin neg mant exp => some (fmtFinite neg mant exp)

/-- Insertion of one rendered member into a list sorted by key. -/
def insertByKey (kv : String × List Char) : List (String × List Char) → List (String × List Char)
  | [] => [kv]
  | x :: xs => if lessChars kv.1.toList x.1.toList then kv :: x :: xs else x :: insertByKey kv xs

/-- The rendered members sorted by key, as `encoding/json` orders a map. -/
def sortByKey (kvs : List (String × List Char)) : List (String × List Char) :=
  kvs.foldr insertByKey []

/-- The texts joined with commas. -/
def joinComma : List (List Char) → List Char
  | [] => []
  | [x] => x
  | x :: y :: rest => x ++ ',' :: joinComma (y :: rest)

/-- One rendered member `"key":value`. -/
def renderMember (kv : String × List Char) : List Char :=
  quoteJSON kv.1 ++ ':' :: kv.2

/-- Go `json.Marshal` on a `Value`: compact JSON, map keys sorted, `none` when
some `float64` inside is NaN or infinite. -/
def Value.marshal : Value → Option (List Char)
  | .null => some "null".toList
  | .bool b => some (if b then "true".toList else "false".toList)
  | .int i => some (toString i).toList
  | .float f => f.marshal
  | .str s => some (quoteJSON s)
  | .arr xs => (marshalElems xs).map fun ts => '[' :: (joinComma ts ++ [']'])
  | .obj kvs =>
    (marshalMembers kvs).map fun ms => '{' :: (joinComma ((sortByKey ms).map renderMember) ++ ['}'])
where
  /-- The elements of a slice, each marshalled. -/
  marshalElems : List Value → Option (List (List Char))
    | [] => some []
    | x :: xs =>
      match x.marshal, marshalElems xs with
      | some t, some ts => some (t :: ts)
      | _, _ => none
  /-- The members of a map, each value marshalled. -/
  marshalMembers : List (String × Value) → Option (List (String × List Char))
    | [] => some []
    | (k, v) :: kvs =>
      match v.marshal, marshalMembers kvs with
      | some t, some ts => some ((k, t) :: ts)
      | _, _ => none

/-! ## `pkg/instacart/types.go` -/

/-- A recipe ingredient. -/
structure Ingredient where
  Name : String
  Quantity : Float64
  Unit : String
  DisplayText : String
  deriving DecidableEq, Repr

/-- A recipe to create on Instacart. -/
structure Recipe where
  Title : String
  ImageURL : String
  Author : String
  Servings : Int
  CookingTime : Int
  Instructions : List String
  Ingredients : List Ingredient
  deriving DecidableEq, Repr

/-- A shopping list item. -/
structure LineItem where
  Name : String
  Quantity : Float64
  Unit : String
  DisplayText : String
  deriving DecidableEq, Repr

/-- A shopping list to create on Instacart. -/
structure ShoppingList where
  Title : String
  ImageURL : String
  ExpiresIn : Int
  LineItems : List LineItem
  EnablePantry : Bool
  deriving DecidableEq, Repr

/-! ## `pkg/instacart/client.go`: the argument mappings -/

/-- The map built for one ingredient by the loop of `CreateRecipe`
(client.go lines 61-73). -/
def ingredientMap (ing : Ingredient) : GoMap :=
  let m : GoMap := [("name", .str ing.Name)]
  let m := if ing.Quantity.gtZero then m.set "quantity" (.float ing.Quantity) else m
  let m := if ing.Unit ≠ "" then m.set "unit" (.str ing.Unit) else m
  let m := if ing.DisplayText ≠ "" then m.set "displayText" (.str ing.DisplayText) else m
  m

/-- The argument mapping `args` of `CreateRecipe` as it stands when `callTool`
is called (client.go lines 60-93). -/
def recipeArgs (recipe : Recipe) : GoMap :=
  let ingredients := recipe.Ingredients.map fun ing => Value.obj (ingredientMap ing)
  let args : GoMap := [("title", .str recipe.Title), ("ingredients", .arr ingredients)]
  let args := if recipe.Author ≠ "" then args.set "author" (.str recipe.Author) else args
  let args := if recipe.Servings > 0 then args.set "servings" (.int recipe.Servings) else args
  let args := if recipe.CookingTime > 0 then args.set "cooking_time" (.int recipe.CookingTime) else args
  let args := if recipe.ImageURL ≠ "" then args.set "image_url" (.str recipe.ImageURL) else args
  let args :=
    if recipe.Instructions.length > 0 then
      args.set "instructions" (.arr (recipe.Instructions.map Value.str))
    else args
  args

/-- The map built for one line item by the loop of `CreateShoppingList`
(client.go lines 105-117). -/
def lineItemMap (item : LineItem) : GoMap :=
  let m : GoMap := [("name", .str item.Name)]
  let m := if item.Quantity.gtZero then m.set "quantity" (.float item.Quantity) else m
  let m := if item.Unit ≠ "" then m.set "unit" (.str item.Unit) else m
  let m := if item.DisplayText ≠ "" then m.set "displayText" (.str item.DisplayText) else m
  m

/-- The pantry block of `CreateShoppingList` (client.go lines 130-133): an
empty map is stored under `landingPageConfiguration` when that entry is nil,
then `enablePantryItems = true` is written into the map found there. The type
assertion `.(map[string]any)` panics on anything else: `none`. -/
def enablePantry (args : GoMap) : Option GoMap :=
  let args :=
    match args.get "landingPageConfiguration" with
    | none => args.set "landingPageConfiguration" (.obj [])
    | some .null => args.set "landingPageConfiguration" (.obj [])
    | some _ => args
  match args.get "landingPageConfiguration" with
  | some (.obj cfg) =>
    some (args.set "landingPageConfiguration" (.obj (GoMap.set cfg "enablePantryItems" (.bool true))))
  | _ => none

/-- The argument mapping `args` of `CreateShoppingList` as it stands when
`callTool` is called (client.go lines 104-134); `none` for a panic. -/
def listArgs (list : ShoppingList) : Option GoMap :=
  let lineItems := list.LineItems.map fun item => Value.obj (lineItemMap item)
  let args : GoMap := [("title", .str list.Title), ("lineItems", .arr lineItems)]
  let args := if list.ImageURL ≠ "" then args.set "image_url" (.str list.ImageURL) else args
  let args := if list.ExpiresIn > 0 then args.set "expires_in" (.int list.ExpiresIn) else args
  if list.EnablePantry then enablePantry args else some args

/-! ## `pkg/instacart/client.go`: `extractURL` -/

/-- The characters the class `[^\s\"']` of the pattern excludes: the regexp
white space `\t \n \f \r` and space, the double quote and the single quote. -/
def isDelim (c : Char) : Bool :=
  let n := c.toNat
  n == 9 || n == 10 || n == 12 || n == 13 || n == 32 || n == 34 || n == 39

/-- The pattern tried at the start of `s` with the given scheme text: the
scheme, then the longest run of non-excluded characters, which must not be
empty (`+` is greedy). -/
def matchScheme (scheme s : List Char) : Option (List Char) :=
  if scheme.isPrefixOf s then
    let body := (s.drop scheme.length).takeWhile fun c => !isDelim c
    if body.isEmpty then none else some (scheme ++ body)
  else none

/-- The pattern `https?://[^\s\"']+` tried at the start of `s`: the optional
`s` is tried first, then the pattern without it. -/
def matchHere (s : List Char) : Option (List Char) :=
  match matchScheme "https://".toList s with
  | some m => some m
  | none => matchScheme "http://".toList s

/-- Go `regexp.MustCompile(pattern).FindString(s)` for the pattern
`https?://[^\s\"']+`: the match at the leftmost position that has one, the
empty text when no position has. -/
def findString : List Char → List Char
  | [] => []
  | c :: cs =>
    match matchHere (c :: cs) with
    | some m => m
    | none => findString cs

/-- The candidate keys of `extractURL`, in the order they are tried. -/
def candidateKeys : List String :=
  ["url", "share_url", "shareUrl", "shopping_list_url", "shoppingListUrl"]

/-- The loop of `extractURL` over the remaining candidate keys (client.go lines
199-203): the first key whose entry is a string with the prefix `http`. -/
def scanKeys (data : GoMap) : List String → Option String
  | [] => none
  | key :: rest =>
    match data.get key with
    | some (.str v) => if hasPrefix v "http" then some v else scanKeys data rest
    | _ => scanKeys data rest

/-- Go `extractURL` (client.go lines 193-211). -/
def extractURL (data : GoMap) : String :=
  if data.length = 0 then ""
  else
    match scanKeys data candidateKeys with
    | some v => v
    | none =>
      match Value.marshal (.obj data) with
      | none => ""
      | some b => String.mk (findString b)

/-! ## `pkg/instacart/client.go`: the transport -/

/-- The client: endpoint and bearer token (the `http.Client` with its 30 s
timeout is part of `World.roundTrip`). -/
structure Client where
  Endpoint : String
  Token : String
  deriving DecidableEq, Repr

/-- The default endpoint. -/
def DefaultEndpoint : String := "https://mcp.dev.instacart.tools/mcp"

/-- Go `NewClient`. -/
def NewClient (endpoint token : String) : Client :=
  { Endpoint := if endpoint = "" then DefaultEndpoint else endpoint, Token := token }

/-- The `params` member of the request. -/
structure rpcParams where
  Name : String
  Arguments : GoMap

/-- The JSON-RPC request. -/
structure rpcRequest where
  JSONRPC : String
  Method : String
  Params : rpcParams
  ID : String

/-- The `error` member of the response. -/
structure rpcError where
  Code : Int
  Message : String
  deriving DecidableEq, Repr

/-- The JSON-RPC response; `Error` is `none` for the nil pointer. -/
structure rpcResponse where
  Result : GoMap
  Error : Option rpcError

/-- The HTTP request `callTool` hands to `HTTPClient.Do`. -/
structure Request where
  method : String
  url : String
  contentType : String
  authorization : Option String
  body : String
  deriving DecidableEq, Repr

/-- What came back: the status code and what `io.ReadAll(resp.Body)` gave. -/
structure Response where
  StatusCode : Int
  Body : Except String String

/-- What `callTool` takes from outside the repository. -/
structure World where
  /-- The reading `time.Now().UnixNano()`. -/
  now : Int
  /-- Whether `http.NewRequestWithContext` accepts the endpoint. -/
  validEndpoint : String → Bool
  /-- The call `HTTPClient.Do(req)`: a response, or the error of a failed,
  timed-out or cancelled round trip. -/
  roundTrip : Request → Except String Response
  /-- The call `json.Unmarshal(respBody, &rpcResp)`. -/
  unmarshal : String → Except String rpcResponse

/-- The errors `callTool` returns, one constructor for each `fmt.Errorf`. -/
inductive CallError where
  /-- The error `marshal rpc payload: %w`. -/
  | marshalPayload
  /-- The error `create request: %w`. -/
  | createRequest
  /-- The error `send request: %w`. -/
  | sendRequest (cause : String)
  /-- The error `read response: %w`. -/
  | readResponse (cause : String)
  /-- The error `instacart returned %d: %s`. -/
  | httpStatus (code : Int) (body : String)
  /-- The error `decode response: %w`. -/
  | decodeResponse (cause : String)
  /-- The error `rpc error (%d): %s`. -/
  | rpc (code : Int) (message : String)
  deriving DecidableEq, Repr

/-- The payload `callTool` builds (client.go lines 144-152). -/
def mkPayload (w : World) (toolName : String) (args : GoMap) : rpcRequest :=
  { JSONRPC := "2.0"
    Method := "tools/call"
    ID := "instacart-cli-" ++ toString w.now
    Params := { Name := toolName, Arguments := args } }

/-- Go `json.Marshal` on an `rpcRequest`: the members in field order
`jsonrpc`, `method`, `params`, `id`. -/
def rpcRequest.marshal (p : rpcRequest) : Option (List Char) :=
  (Value.marshal (.obj p.Params.Arguments)).map fun arguments =>
    let params : List Char :=
      '{' :: (joinComma ([("name", quoteJSON p.Params.Name), ("arguments", arguments)].map
        renderMember) ++ ['}'])
    '{' :: (joinComma ([("jsonrpc", quoteJSON p.JSONRPC), ("method", quoteJSON p.Method),
      ("params", params), ("id", quoteJSON p.ID)].map renderMember) ++ ['}'])

/-- The request `callTool` builds around a marshalled body (client.go lines
159-166). -/
def mkRequest (c : Client) (body : List Char) : Request :=
  { method := "POST"
    url := c.Endpoint
    contentType := "application/json"
    authorization := if c.Token ≠ "" then some ("Bearer " ++ c.Token) else none
    body := String.mk body }

/-- The part of `callTool` after `HTTPClient.Do` (client.go lines 168-190). -/
def classify (w : World) : Except String Response → Except CallError GoMap
  | .error cause => .error (.sendRequest cause)
  | .ok resp =>
    match resp.Body with
    | .error cause => .error (.readResponse cause)
    | .ok respBody =>
      if resp.StatusCode < 200 ∨ resp.StatusCode ≥ 300 then
        .error (.httpStatus resp.StatusCode (trimSpace respBody))
      else
        match w.unmarshal respBody with
        | .error cause => .error (.decodeResponse cause)
        | .ok rpcResp =>
          match rpcResp.Error with
          | some e => .error (.rpc e.Code e.Message)
          | none => .ok rpcResp.Result

/-- Go `Client.callTool`: the result, and the requests handed to
`HTTPClient.Do`. -/
def callTool (w : World) (c : Client) (toolName : String) (args : GoMap) :
    Except CallError GoMap × List Request :=
  match (mkPayload w toolName args).marshal with
  | none => (.error .marshalPayload, [])
  | some body =>
    if w.validEndpoint c.Endpoint then
      let req := mkRequest c body
      (classify w (w.roundTrip req), [req])
    else (.error .createRequest, [])

/-- Go `Client.CreateRecipe`. -/
def CreateRecipe (w : World) (c : Client) (recipe : Recipe) :
    Except CallError String × List Request :=
  match callTool w c "create-recipe" (recipeArgs recipe) with
  | (.error err, sent) => (.error err, sent)
  | (.ok result, sent) => (.ok (extractURL result), sent)

/-- Go `Client.CreateShoppingList`; `none` for a panic. -/
def CreateShoppingList (w : World) (c : Client) (list : ShoppingList) :
    Option (Except CallError String × List Request) :=
  match listArgs list with
  | none => none
  | some args =>
    match callTool w c "create-shopping-list" args with
    | (.error err, sent) => some (.error err, sent)
    | (.ok result, sent) => some (.ok (extractURL result), sent)

/-! ## `cmd/root.go`, `cmd/recipe.go`, `cmd/list.go` -/

/-- What the commands take from outside the repository: the persistent flags,
the process environment and the standard-library parsers. -/
structure Env where
  /-- The flag `--endpoint`. -/
  endpoint : String
  /-- The flag `--token`. -/
  token : String
  /-- The variable `INSTACART_MCP_TOKEN`, empty when unset. -/
  envToken : String
  /-- The call `os.ReadFile(name)`. -/
  readFile : String → Except String String
  /-- The call `json.Unmarshal(data, &recipe)` on a zero `Recipe`. -/
  unmarshalRecipe : String → Except String Recipe
  /-- The call `json.Unmarshal(data, &list)` on a zero `ShoppingList`. -/
  unmarshalList : String → Except String ShoppingList
  /-- The call `strconv.ParseFloat(s, 64)`: `none` when it returns an error. -/
  parseFloat : String → Option Float64
  /-- The value `fmt.Sscanf(q, "%f", &f)` leaves in a zero `f`. -/
  sscanFloat : String → Float64

/-- The flags of `recipe`. -/
structure RecipeFlags where
  servings : Int
  author : String
  cookingTime : Int
  imageURL : String
  ingredients : List String
  instructions : List String
  file : String
  asJSON : Bool
  openURL : Bool
  quiet : Bool

/-- The flags of `list`. -/
structure ListFlags where
  items : List String
  expires : Int
  imageURL : String
  file : String
  asJSON : Bool
  openURL : Bool
  quiet : Bool
  pantry : Bool

/-- The errors `runRecipe` and `runList` return. -/
inductive CmdError where
  /-- The error `read file: %w`. -/
  | readFile (cause : String)
  /-- The error `parse JSON: %w`. -/
  | parseJSON (cause : String)
  /-- The errors `recipe title is required (or use --file)` and
  `list title is required (or use --file)`. -/
  | titleRequired
  /-- The error `invalid ingredient: %q`. -/
  | invalidIngredient (raw : String)
  /-- The error `invalid item: %q`. -/
  | invalidItem (raw : String)
  /-- The error `at least one ingredient is required`. -/
  | noIngredients
  /-- The error `at least one item is required`. -/
  | noItems
  /-- The error `create recipe: %w`. -/
  | createRecipe (err : CallError)
  /-- The error `create shopping list: %w`. -/
  | createList (err : CallError)
  deriving DecidableEq, Repr

/-- What `printResult` did: what it printed (kind, title, URL, in which of the
three formats) and whether it started the browser. -/
structure Report where
  kind : String
  title : String
  url : String
  quiet : Bool
  asJSON : Bool
  opened : Bool
  deriving DecidableEq, Repr

/-- Go `getToken`. -/
def getToken (env : Env) : String :=
  if env.token ≠ "" then env.token
  else if env.envToken ≠ "" then env.envToken
  else ""

/-- Go `printResult`; it always returns nil. -/
def printResult (kind title url : String) (asJSON quiet openURL : Bool) : Report :=
  { kind := kind, title := title, url := url, quiet := quiet, asJSON := asJSON
    opened := openURL && decide (url ≠ "") }

/-- The zero `float64`. -/
def Float64.zero : Float64 := .fin false 0 0

/-- Go `strings.SplitN(raw, ",", 3)`. -/
def splitN3 (raw : String) : List String := (splitNComma 3 raw.toList).map String.mk

/-- Go `parseIngredient` (recipe.go lines 100-117). -/
def parseIngredient (env : Env) (raw : String) : Except CmdError Ingredient :=
  let parts := splitN3 raw
  if parts.length = 0 ∨ trimSpace (parts.getD 0 "") = "" then
    .error (.invalidIngredient raw)
  else
    let ing : Ingredient :=
      { Name := trimSpace (parts.getD 0 ""), Quantity := Float64.zero, Unit := "", DisplayText := "" }
    let ing :=
      if parts.length ≥ 2 then
        match env.parseFloat (trimSpace (parts.getD 1 "")) with
        | some q => { ing with Quantity := q }
        | none => ing
      else ing
    let ing := if parts.length ≥ 3 then { ing with Unit := trimSpace (parts.getD 2 "") } else ing
    .ok ing

/-- Go `parseLineItem` (list.go lines 93-112). -/
def parseLineItem (env : Env) (raw : String) : Except CmdError LineItem :=
  let parts := splitN3 raw
  if parts.length = 0 ∨ trimSpace (parts.getD 0 "") = "" then
    .error (.invalidItem raw)
  else
    let item : LineItem :=
      { Name := trimSpace (parts.getD 0 ""), Quantity := Float64.zero, Unit := "", DisplayText := "" }
    let item :=
      if parts.length ≥ 2 then
        let q := trimSpace (parts.getD 1 "")
        if q ≠ "" then { item with Quantity := env.sscanFloat q } else item
      else item
    let item := if parts.length ≥ 3 then { item with Unit := trimSpace (parts.getD 2 "") } else item
    .ok item

/-- The loop of `runRecipe` over the `--ingredient` values (recipe.go lines
78-84): the first parse error ends it. -/
def parseIngredients (env : Env) : List String → Except CmdError (List Ingredient)
  | [] => .ok []
  | raw :: rest =>
    match parseIngredient env raw with
    | .error err => .error err
    | .ok ing =>
      match parseIngredients env rest with
      | .error err => .error err
      | .ok ings => .ok (ing :: ings)

/-- The loop of `runList` over the `--item` values (list.go lines 71-77). -/
def parseLineItems (env : Env) : List String → Except CmdError (List LineItem)
  | [] => .ok []
  | raw :: rest =>
    match parseLineItem env raw with
    | .error err => .error err
    | .ok item =>
      match parseLineItems env rest with
      | .error err => .error err
      | .ok items => .ok (item :: items)

/-- The record `runRecipe` assembles, from the file or from the flags
(recipe.go lines 51-85). -/
def assembleRecipe (env : Env) (flags : RecipeFlags) (args : List String) :
    Except CmdError Recipe :=
  if flags.file ≠ "" then
    match env.readFile (if flags.file = "-" then "/dev/stdin" else flags.file) with
    | .error cause => .error (.readFile cause)
    | .ok data =>
      match env.unmarshalRecipe data with
      | .error cause => .error (.parseJSON cause)
      | .ok recipe => .ok recipe
  else
    match args with
    | [] => .error .titleRequired
    | title :: _ =>
      match parseIngredients env flags.ingredients with
      | .error err => .error err
      | .ok ings =>
        .ok { Title := title, Servings := flags.servings, Author := flags.author
              CookingTime := flags.cookingTime, ImageURL := flags.imageURL
              Instructions := flags.instructions, Ingredients := ings }

/-- Go `runRecipe`: its result, and the requests that reached the transport. -/
def runRecipe (env : Env) (w : World) (flags : RecipeFlags) (args : List String) :
    Except CmdError Report × List Request :=
  match assembleRecipe env flags args with
  | .error err => (.error err, [])
  | .ok recipe =>
    if recipe.Ingredients.length = 0 then (.error .noIngredients, [])
    else
      match CreateRecipe w (NewClient env.endpoint (getToken env)) recipe with
      | (.error err, sent) => (.error (.createRecipe err), sent)
      | (.ok url, sent) =>
        (.ok (printResult "Recipe" recipe.Title url flags.asJSON flags.quiet flags.openURL), sent)

/-- The record `runList` assembles, from the file or from the flags (list.go
lines 46-78). -/
def assembleList (env : Env) (flags : ListFlags) (args : List String) :
    Except CmdError ShoppingList :=
  if flags.file ≠ "" then
    match env.readFile (if flags.file = "-" then "/dev/stdin" else flags.file) with
    | .error cause => .error (.readFile cause)
    | .ok data =>
      match env.unmarshalList data with
      | .error cause => .error (.parseJSON cause)
      | .ok list => .ok list
  else
    match args with
    | [] => .error .titleRequired
    | title :: _ =>
      match parseLineItems env flags.items with
      | .error err => .error err
      | .ok items =>
        .ok { Title := title, ExpiresIn := flags.expires, ImageURL := flags.imageURL
              EnablePantry := flags.pantry, LineItems := items }

/-- Go `runList`: its result, and the requests that reached the transport;
`none` for a panic. -/
def runList (env : Env) (w : World) (flags : ListFlags) (args : List String) :
    Option (Except CmdError Report × List Request) :=
  match assembleList env flags args with
  | .error err => some (.error err, [])
  | .ok list =>
    if list.LineItems.length = 0 then some (.error .noItems, [])
    else
      match CreateShoppingList w (NewClient env.endpoint (getToken env)) list with
      | none => none
      | some (.error err, sent) => some (.error (.createList err), sent)
      | some (.ok url, sent) =>
        some (.ok (printResult "Shopping list" list.Title url flags.asJSON flags.quiet
          flags.openURL), sent)

/-! ## The words of the specification -/

/-- The pattern in the words of the specification: `http://` or `https://`
followed by one or more characters that are neither white space nor a quote. -/
def IsURLText (m : List Char) : Prop :=
  ∃ scheme body, (scheme = "http://".toList ∨ scheme = "https://".toList) ∧
    body ≠ [] ∧ (∀ c ∈ body, isDelim c = false) ∧ m = scheme ++ body

/-- The text `m` matches the pattern at offset `i` of `text`. -/
def Occurs (text : List Char) (i : Nat) (m : List Char) : Prop :=
  IsURLText m ∧ m <+: text.drop i

/-- The first match of the pattern in `text`: a match at the least offset that
has one, and the longest match at that offset. -/
def IsFirstMatch (text m : List Char) : Prop :=
  ∃ i, Occurs text i m ∧ (∀ j m', Occurs text j m' → i ≤ j) ∧
    (∀ m', Occurs text i m' → m'.length ≤ m.length)

/-- The pattern matches nowhere in `text`. -/
def NoMatch (text : List Char) : Prop := ∀ i m, ¬ Occurs text i m

/-- Whether `json.Marshal` can encode the value: no `float64` inside is NaN or
infinite. Every value `json.Unmarshal` produces is such. -/
def Value.encodable : Value → Bool
  | .null => true
  | .bool _ => true
  | .int _ => true
  | .float f => f.marshal.isSome
  | .str _ => true
  | .arr xs => encodableElems xs
  | .obj kvs => encodableMembers kvs
where
  /-- All elements of a slice are encodable. -/
  encodableElems : List Value → Bool
    | [] => true
    | x :: xs => x.encodable && encodableElems xs
  /-- All member values of a map are encodable. -/
  encodableMembers : List (String × Value) → Bool
    | [] => true
    | (_, v) :: kvs => v.encodable && encodableMembers kvs

/-- Every string inside a value, at any depth: string values and map keys. -/
def Value.strings : Value → List String
  | .null => []
  | .bool _ => []
  | .int _ => []
  | .float _ => []
  | .str s => [s]
  | .arr xs => stringsElems xs
  | .obj kvs => stringsMembers kvs
where
  /-- The strings inside the elements of a slice. -/
  stringsElems : List Value → List String
    | [] => []
    | x :: xs => x.strings ++ stringsElems xs
  /-- The keys of a map and the strings inside its values. -/
  stringsMembers : List (String × Value) → List String
    | [] => []
    | (k, v) :: kvs => k :: (v.strings ++ stringsMembers kvs)

/-- Whether `sub` occurs in `s` as a substring (Go `strings.Contains`). -/
def containsText (s sub : String) : Bool :=
  s.toList.tails.any fun t => sub.toList.isPrefixOf t

/-- The text before the first comma: all of `s` when it has no comma. -/
def beforeComma (s : List Char) : List Char := s.takeWhile fun c => c != ','

/-- The text after the first comma: `none` when `s` has no comma. -/
def afterComma (s : List Char) : Option (List Char) :=
  match s.dropWhile fun c => c != ',' with
  | [] => none
  | _ :: rest => some rest

/-- The text after the second comma: `none` when `s` has fewer than two. -/
def afterSecondComma (s : List Char) : Option (List Char) :=
  (afterComma s).bind afterComma

/-! ## Worlds for the examples -/

/-- The body of a JSON-RPC error response. -/
def errorBody : String := "\x7b\"error\":\x7b\"code\":42,\"message\":\"bad\"\x7d\x7d"

/-- The body of a JSON-RPC response with a URL. -/
def resultBody : String := "\x7b\"result\":\x7b\"url\":\"https://instacart.com/r/123\"\x7d\x7d"

/-- A decoder that does what `json.Unmarshal` does on `errorBody`, on
`resultBody` and on the malformed body `oops`. -/
def exampleUnmarshal (body : String) : Except String rpcResponse :=
  if body = errorBody then .ok { Result := [], Error := some { Code := 42, Message := "bad" } }
  else if body = resultBody then
    .ok { Result := [("url", .str "https://instacart.com/r/123")], Error := none }
  else .error "invalid character"

/-- A world whose server answers every request with the given status and body. -/
def exampleWorld (status : Int) (body : String) : World :=
  { now := 1700000000
    validEndpoint := fun _ => true
    roundTrip := fun _ => .ok { StatusCode := status, Body := .ok body }
    unmarshal := exampleUnmarshal }

/-- An environment with no flags set, no files, and no numbers recognised. -/
def exampleEnv : Env :=
  { endpoint := "", token := "", envToken := ""
    readFile := fun _ => .ok "\x7b\"title\":\"Empty\"\x7d"
    unmarshalRecipe := fun _ =>
      .ok { Title := "Empty", ImageURL := "", Author := "", Servings := 0, CookingTime := 0
            Instructions := [], Ingredients := [] }
    unmarshalList := fun _ =>
      .ok { Title := "Empty", ImageURL := "", ExpiresIn := 0, LineItems := [], EnablePantry := false }
    parseFloat := fun _ => none
    sscanFloat := fun _ => Float64.zero }

/-- The recipe of the end-to-end scenario. -/
def tacos : Recipe :=
  { Title := "Tacos", ImageURL := "", Author := "", Servings := 0, CookingTime := 0
    Instructions := []
    Ingredients := [{ Name := "Tortilla", Quantity := .fin false 8 0, Unit := "count", DisplayText := "" }] }

/-- A recipe without ingredients. -/
def emptyRecipe : Recipe :=
  { Title := "Nothing", ImageURL := "", Author := "", Servings := 0, CookingTime := 0
    Instructions := [], Ingredients := [] }

/-- A shopping list without line items. -/
def emptyList : ShoppingList :=
  { Title := "Nothing", ImageURL := "", ExpiresIn := 0, LineItems := [], EnablePantry := false }

/-- No flags of `recipe` set. -/
def noRecipeFlags : RecipeFlags :=
  { servings := 0, author := "", cookingTime := 0, imageURL := "", ingredients := []
    instructions := [], file := "", asJSON := false, openURL := false, quiet := false }

/-- No flags of `list` set. -/
def noListFlags : ListFlags :=
  { items := [], expires := 0, imageURL := "", file := "", asJSON := false, openURL := false
    quiet := false, pantry := false }

/-! # Theorems -/

/-! ## Maps -/

theorem GoMap.get_nil (k : String) : GoMap.get [] k = none := rfl

theorem GoMap.get_cons (m : GoMap) (k k' : String) (v : Value) :
    GoMap.get ((k', v) :: m) k = if k = k' then some v else GoMap.get m k := by
  unfold GoMap.get
  rw [List.lookup_cons]
  by_cases h : k = k'
  · subst h; simp
  · have hb : (k == k') = false := by simpa using h
    simp [hb, h]

theorem GoMap.get_set_self (m : GoMap) (k : String) (v : Value) :
    (GoMap.set m k v).get k = some v := by
  induction m with
  | nil => simp [GoMap.set, GoMap.get_cons]
  | cons kv m ih =>
    obtain ⟨k', v'⟩ := kv
    unfold GoMap.set
    by_cases h : k' = k
    · simp [h, GoMap.get_cons]
    · have h' : ¬ k = k' := fun e => h e.symm
      simp [h, h', GoMap.get_cons, ih]

theorem GoMap.get_set_other (m : GoMap) (k k' : String) (v : Value) (h : k ≠ k') :
    (GoMap.set m k v).get k' = m.get k' := by
  have hs : ¬ k' = k := fun e => h e.symm
  induction m with
  | nil => simp [GoMap.set, GoMap.get_cons, hs, GoMap.get_nil]
  | cons kv m ih =>
    obtain ⟨k₁, v₁⟩ := kv
    unfold GoMap.set
    by_cases h₁ : k₁ = k
    · subst h₁
      simp [GoMap.get_cons, hs]
    · simp [h₁, GoMap.get_cons, ih]

theorem GoMap.get_set (m : GoMap) (k k' : String) (v : Value) :
    (GoMap.set m k v).get k' = if k = k' then some v else m.get k' := by
  by_cases h : k = k'
  · subst h; simp [GoMap.get_set_self]
  · simp [h, GoMap.get_set_other m k k' v h]

/-! ## The argument mappings -/

theorem ingredientMap_get (ing : Ingredient) :
    (ingredientMap ing).get "name" = some (.str ing.Name) ∧
    (ingredientMap ing).get "quantity" =
      (if ing.Quantity.gtZero = true then some (.float ing.Quantity) else none) ∧
    (ingredientMap ing).get "unit" = (if ing.Unit ≠ "" then some (.str ing.Unit) else none) ∧
    (ingredientMap ing).get "displayText" =
      (if ing.DisplayText ≠ "" then some (.str ing.DisplayText) else none) := by
  unfold ingredientMap
  refine ⟨?_, ?_, ?_, ?_⟩ <;>
    (split_ifs <;> simp [GoMap.get_set, GoMap.get_cons, GoMap.get_nil])

theorem lineItemMap_get (item : LineItem) :
    (lineItemMap item).get "name" = some (.str item.Name) ∧
    (lineItemMap item).get "quantity" =
      (if item.Quantity.gtZero = true then some (.float item.Quantity) else none) ∧
    (lineItemMap item).get "unit" = (if item.Unit ≠ "" then some (.str item.Unit) else none) ∧
    (lineItemMap item).get "displayText" =
      (if item.DisplayText ≠ "" then some (.str item.DisplayText) else none) := by
  unfold lineItemMap
  refine ⟨?_, ?_, ?_, ?_⟩ <;>
    (split_ifs <;> simp [GoMap.get_set, GoMap.get_cons, GoMap.get_nil])

theorem GoMap.get_ite_set (c : Prop) [Decidable c] (m : GoMap) (k k' : String) (v : Value) :
    GoMap.get (if c then GoMap.set m k v else m) k' =
      if k = k' then (if c then some v else m.get k') else m.get k' := by
  by_cases hc : c
  · by_cases hk : k = k'
    · simp [hc, hk, GoMap.get_set]
    · simp [hc, hk, GoMap.get_set]
  · by_cases hk : k = k'
    · simp [hc, hk]
    · simp [hc, hk]

theorem recipeArgs_get (recipe : Recipe) :
    (recipeArgs recipe).get "author" =
      (if recipe.Author ≠ "" then some (.str recipe.Author) else none) ∧
    (recipeArgs recipe).get "image_url" =
      (if recipe.ImageURL ≠ "" then some (.str recipe.ImageURL) else none) ∧
    (recipeArgs recipe).get "servings" =
      (if recipe.Servings > 0 then some (.int recipe.Servings) else none) ∧
    (recipeArgs recipe).get "cooking_time" =
      (if recipe.CookingTime > 0 then some (.int recipe.CookingTime) else none) ∧
    (recipeArgs recipe).get "instructions" =
      (if recipe.Instructions ≠ [] then some (.arr (recipe.Instructions.map Value.str)) else none) ∧
    (recipeArgs recipe).get "ingredients" =
      some (.arr (recipe.Ingredients.map fun ing => Value.obj (ingredientMap ing))) ∧
    (recipeArgs recipe).get "title" = some (.str recipe.Title) ∧
    (recipeArgs recipe).get "landingPageConfiguration" = none := by
  have hlen : recipe.Instructions.length > 0 ↔ recipe.Instructions ≠ [] := List.length_pos
  unfold recipeArgs
  simp only [hlen, GoMap.get_ite_set, GoMap.get_cons, GoMap.get_nil]
  refine ⟨?_, ?_, ?_, ?_, ?_, ?_, ?_, ?_⟩ <;> simp

theorem GoMap.set_set (m : GoMap) (k : String) (v v' : Value) :
    GoMap.set (GoMap.set m k v) k v' = GoMap.set m k v' := by
  induction m with
  | nil => simp [GoMap.set]
  | cons kv m ih =>
    obtain ⟨k₁, v₁⟩ := kv
    by_cases h₁ : k₁ = k
    · simp [GoMap.set, h₁]
    · simp [GoMap.set, h₁, ih]

theorem enablePantry_fresh (args : GoMap) (h : args.get "landingPageConfiguration" = none) :
    enablePantry args = some (args.set "landingPageConfiguration"
      (.obj [("enablePantryItems", .bool true)])) := by
  unfold enablePantry
  simp only [h, GoMap.get_set_self]
  simp [GoMap.set_set, GoMap.set]

theorem listArgs_eq (list : ShoppingList) :
    ∃ args, listArgs list = some args ∧
    args.get "image_url" = (if list.ImageURL ≠ "" then some (.str list.ImageURL) else none) ∧
    args.get "expires_in" = (if list.ExpiresIn > 0 then some (.int list.ExpiresIn) else none) ∧
    args.get "lineItems" =
      some (.arr (list.LineItems.map fun item => Value.obj (lineItemMap item))) ∧
    args.get "title" = some (.str list.Title) ∧
    args.get "landingPageConfiguration" =
      (if list.EnablePantry = true then some (.obj [("enablePantryItems", .bool true)])
       else none) := by
  unfold listArgs
  by_cases hp : list.EnablePantry = true
  · simp only [hp, if_true]
    refine ⟨_, enablePantry_fresh _ ?_, ?_⟩
    · simp only [GoMap.get_ite_set, GoMap.get_cons, GoMap.get_nil]
      simp
    · simp only [GoMap.get_set, GoMap.get_ite_set, GoMap.get_cons, GoMap.get_nil]
      refine ⟨?_, ?_, ?_, ?_, ?_⟩ <;> simp
  · simp only [hp]
    refine ⟨_, rfl, ?_⟩
    simp only [GoMap.get_ite_set, GoMap.get_cons, GoMap.get_nil]
    refine ⟨?_, ?_, ?_, ?_, ?_⟩ <;> simp

/-- C4: omit-if-empty. In the argument mapping of `CreateRecipe`, `author` and
`image_url` are keys iff the field is a non-empty string, `servings` and
`cooking_time` iff the field is `> 0`, `instructions` iff the sequence is
non-empty, and each then carries the input value; `ingredients` is a sequence
of maps of the input's length whose `i`-th map has `name` equal to the `i`-th
name, `quantity` iff `> 0`, `unit` and `displayText` iff non-empty, each with
the input value. The same holds for `image_url`, `expires_in` and `lineItems`
in the argument mapping of `CreateShoppingList`, which is always built. -/
theorem omit_if_empty (recipe : Recipe) (list : ShoppingList) :
    ((recipeArgs recipe).get "author" =
        (if recipe.Author ≠ "" then some (.str recipe.Author) else none) ∧
      (recipeArgs recipe).get "image_url" =
        (if recipe.ImageURL ≠ "" then some (.str recipe.ImageURL) else none) ∧
      (recipeArgs recipe).get "servings" =
        (if recipe.Servings > 0 then some (.int recipe.Servings) else none) ∧
      (recipeArgs recipe).get "cooking_time" =
        (if recipe.CookingTime > 0 then some (.int recipe.CookingTime) else none) ∧
      (recipeArgs recipe).get "instructions" =
        (if recipe.Instructions ≠ [] then some (.arr (recipe.Instructions.map Value.str))
         else none) ∧
      ∃ entries : List GoMap,
        (recipeArgs recipe).get "ingredients" = some (.arr (entries.map Value.obj)) ∧
        entries.length = recipe.Ingredients.length ∧
        ∀ (i : Nat) (ing : Ingredient), recipe.Ingredients[i]? = some ing →
          ∃ m : GoMap, entries[i]? = some m ∧
            m.get "name" = some (.str ing.Name) ∧
            m.get "quantity" =
              (if ing.Quantity.gtZero = true then some (.float ing.Quantity) else none) ∧
            m.get "unit" = (if ing.Unit ≠ "" then some (.str ing.Unit) else none) ∧
            m.get "displayText" =
              (if ing.DisplayText ≠ "" then some (.str ing.DisplayText) else none)) ∧
    ∃ args : GoMap, listArgs list = some args ∧
      args.get "image_url" = (if list.ImageURL ≠ "" then some (.str list.ImageURL) else none) ∧
      args.get "expires_in" =
        (if list.ExpiresIn > 0 then some (.int list.ExpiresIn) else none) ∧
      ∃ entries : List GoMap,
        args.get "lineItems" = some (.arr (entries.map Value.obj)) ∧
        entries.length = list.LineItems.length ∧
        ∀ (i : Nat) (item : LineItem), list.LineItems[i]? = some item →
          ∃ m : GoMap, entries[i]? = some m ∧
            m.get "name" = some (.str item.Name) ∧
            m.get "quantity" =
              (if item.Quantity.gtZero = true then some (.float item.Quantity) else none) ∧
            m.get "unit" = (if item.Unit ≠ "" then some (.str item.Unit) else none) ∧
            m.get "displayText" =
              (if item.DisplayText ≠ "" then some (.str item.DisplayText) else none) := by
  constructor
  · obtain ⟨h₁, h₂, h₃, h₄, h₅, h₆, -, -⟩ := recipeArgs_get recipe
    refine ⟨h₁, h₂, h₃, h₄, h₅, recipe.Ingredients.map ingredientMap, ?_, ?_, ?_⟩
    · rw [h₆, List.map_map]; rfl
    · simp
    · intro i ing hi
      exact ⟨ingredientMap ing, by simp [List.getElem?_map, hi], ingredientMap_get ing⟩
  · obtain ⟨args, hargs, h₁, h₂, h₃, -, -⟩ := listArgs_eq list
    refine ⟨args, hargs, h₁, h₂, list.LineItems.map lineItemMap, ?_, ?_, ?_⟩
    · rw [h₃, List.map_map]; rfl
    · simp
    · intro i item hi
      exact ⟨lineItemMap item, by simp [List.getElem?_map, hi], lineItemMap_get item⟩

/-- A concrete case of C4: the Tacos recipe gives `title` and `ingredients`
only, and its one ingredient map has `name`, `quantity` and `unit` but no
`displayText`. -/
theorem omit_if_empty_witness :
    (recipeArgs tacos).get "author" = none ∧
    (recipeArgs tacos).get "servings" = none ∧
    (recipeArgs tacos).get "ingredients" =
      some (.arr [.obj [("name", .str "Tortilla"), ("quantity", .float (.fin false 8 0)),
        ("unit", .str "count")]]) := by
  obtain ⟨⟨h₁, -, h₃, -, -, -⟩, -⟩ := omit_if_empty tacos emptyList
  exact ⟨h₁, h₃, rfl⟩

/-- C5: the pantry flag. The argument mapping of `CreateShoppingList` has no
`landingPageConfiguration` key when `EnablePantry` is false, and has
`landingPageConfiguration` equal to the map with the single entry
`enablePantryItems = true` when it is true; the argument mapping of
`CreateRecipe` never has the key. -/
theorem pantry_flag (recipe : Recipe) (list : ShoppingList) :
    (∃ args : GoMap, listArgs list = some args ∧
      (list.EnablePantry = false → args.get "landingPageConfiguration" = none) ∧
      (list.EnablePantry = true →
        ∃ cfg : GoMap, args.get "landingPageConfiguration" = some (.obj cfg) ∧
          cfg.get "enablePantryItems" = some (.bool true) ∧
          cfg = [("enablePantryItems", .bool true)])) ∧
    (recipeArgs recipe).get "landingPageConfiguration" = none := by
  refine ⟨?_, (recipeArgs_get recipe).2.2.2.2.2.2.2⟩
  obtain ⟨args, hargs, -, -, -, -, h⟩ := listArgs_eq list
  refine ⟨args, hargs, ?_, ?_⟩
  · intro hp
    simpa [hp] using h
  · intro hp
    refine ⟨[("enablePantryItems", .bool true)], ?_, rfl, rfl⟩
    simpa [hp] using h

/-- A concrete case of C5: a list with the flag set and one without. -/
theorem pantry_flag_witness :
    (∃ args : GoMap, listArgs { emptyList with EnablePantry := true } = some args ∧
      args.get "landingPageConfiguration" = some (.obj [("enablePantryItems", .bool true)])) ∧
    (∃ args : GoMap, listArgs emptyList = some args ∧
      args.get "landingPageConfiguration" = none) := by
  constructor
  · obtain ⟨args, hargs, -, h⟩ := (pantry_flag emptyRecipe { emptyList with EnablePantry := true }).1
    obtain ⟨cfg, hcfg, -, rfl⟩ := h rfl
    exact ⟨args, hargs, hcfg⟩
  · obtain ⟨args, hargs, h, -⟩ := (pantry_flag emptyRecipe emptyList).1
    exact ⟨args, hargs, h rfl⟩

/-! ## `extractURL`: the candidate keys -/

theorem scanKeys_at (data : GoMap) :
    ∀ (keys : List String) (i : Nat) (hi : i < keys.length) (v : String),
      data.get (keys.get ⟨i, hi⟩) = some (.str v) → hasPrefix v "http" = true →
      (∀ (j : Nat) (hj : j < keys.length), j < i → ∀ w : String,
        data.get (keys.get ⟨j, hj⟩) = some (.str w) → hasPrefix w "http" = false) →
      scanKeys data keys = some v := by
  intro keys
  induction keys with
  | nil => intro i hi; exact absurd hi (Nat.not_lt_zero _)
  | cons k rest ih =>
    intro i hi v hv hp hfirst
    cases i with
    | zero =>
      simp only [List.get_eq_getElem, List.getElem_cons_zero] at hv
      simp [scanKeys, hv, hp]
    | succ n =>
      have hk : ∀ w : String, data.get k = some (.str w) → hasPrefix w "http" = false := by
        intro w hw
        exact hfirst 0 (Nat.succ_pos _) (Nat.succ_pos _) w (by simpa using hw)
      have hrest : scanKeys data rest = some v := by
        apply ih n (Nat.lt_of_succ_lt_succ hi) v
        · simpa using hv
        · exact hp
        · intro j hj hlt w hw
          exact hfirst (j + 1) (Nat.succ_lt_succ hj) (Nat.succ_lt_succ hlt) w (by simpa using hw)
      unfold scanKeys
      split
      · rename_i w hw
        rw [hk w hw]
        simpa using hrest
      · exact hrest

theorem scanKeys_none (data : GoMap) (keys : List String)
    (h : ∀ k ∈ keys, ∀ w : String, data.get k = some (.str w) → hasPrefix w "http" = false) :
    scanKeys data keys = none := by
  induction keys with
  | nil => rfl
  | cons k rest ih =>
    have hrest := ih (fun k' hk' => h k' (List.mem_cons_of_mem _ hk'))
    unfold scanKeys
    split
    · rename_i w hw
      rw [h k (List.mem_cons_self _ _) w hw]
      simpa using hrest
    · exact hrest

/-- C1: key priority of `extractURL`. When the candidate key at position `i` of
`url, share_url, shareUrl, shopping_list_url, shoppingListUrl` holds a string
`v` beginning with `http`, and no candidate key before it holds such a string
(its entry is absent, is not a string, or does not begin with `http`), then
`extractURL` returns `v`, whatever else the mapping contains. -/
theorem extractURL_key_priority (data : GoMap) (i : Nat) (hi : i < candidateKeys.length)
    (v : String) (hv : data.get (candidateKeys.get ⟨i, hi⟩) = some (.str v))
    (hp : hasPrefix v "http" = true)
    (hfirst : ∀ (j : Nat) (hj : j < candidateKeys.length), j < i → ∀ w : String,
      data.get (candidateKeys.get ⟨j, hj⟩) = some (.str w) → hasPrefix w "http" = false) :
    extractURL data = v := by
  have hne : data.length ≠ 0 := by
    intro h0
    have hnil : data = [] := List.length_eq_zero.mp h0
    rw [hnil] at hv
    exact absurd hv (by simp [GoMap.get])
  unfold extractURL
  rw [if_neg hne, scanKeys_at data candidateKeys i hi v hv hp hfirst]

/-- The examples of C1: `url` is returned when it holds an `http` string, also
next to a `shareUrl` entry, and `shareUrl` is returned when `url` and
`share_url` are absent. -/
theorem extractURL_key_priority_witness :
    extractURL [("url", .str "http://a")] = "http://a" ∧
    extractURL [("shareUrl", .str "https://b"), ("url", .str "http://a")] = "http://a" ∧
    extractURL [("shareUrl", .str "https://b")] = "https://b" := by
  refine ⟨?_, ?_, ?_⟩
  · exact extractURL_key_priority _ 0 (by decide) "http://a" rfl rfl
      (fun j _ hlt => absurd hlt (Nat.not_lt_zero j))
  · exact extractURL_key_priority _ 0 (by decide) "http://a" rfl rfl
      (fun j _ hlt => absurd hlt (Nat.not_lt_zero j))
  · refine extractURL_key_priority _ 2 (by decide) "https://b" rfl rfl ?_
    intro j hj hlt w hw
    have hj2 : j = 0 ∨ j = 1 := by omega
    rcases hj2 with rfl | rfl <;> simp [candidateKeys, GoMap.get_cons, GoMap.get_nil] at hw

/-! ## `extractURL`: the pattern -/

theorem httpChars : "http://".toList = ['h', 't', 't', 'p', ':', '/', '/'] := by decide

theorem httpsChars : "https://".toList = ['h', 't', 't', 'p', 's', ':', '/', '/'] := by decide

theorem schemes_exclusive (s : List Char) (h₁ : "http://".toList <+: s)
    (h₂ : "https://".toList <+: s) : False := by
  rw [httpChars] at h₁
  rw [httpsChars] at h₂
  obtain ⟨t₁, e₁⟩ := h₁
  obtain ⟨t₂, e₂⟩ := h₂
  rw [← e₂] at e₁
  simp at e₁

theorem prefix_takeWhile (p : Char → Bool) :
    ∀ (body l : List Char), body <+: l → (∀ c ∈ body, p c = true) →
      body <+: l.takeWhile p := by
  intro body
  induction body with
  | nil => intro l _ _; exact List.nil_prefix
  | cons b body ih =>
    intro l hpre hall
    obtain ⟨t, rfl⟩ := hpre
    have hb : p b = true := hall b (List.mem_cons_self _ _)
    simp only [List.cons_append, List.takeWhile_cons_of_pos hb]
    exact (List.prefix_cons_inj b).mpr
      (ih (body ++ t) (List.prefix_append _ _) (fun c hc => hall c (List.mem_cons_of_mem _ hc)))

theorem matchScheme_some (scheme s m : List Char) (h : matchScheme scheme s = some m) :
    scheme <+: s ∧ (s.drop scheme.length).takeWhile (fun c => !isDelim c) ≠ [] ∧
      m = scheme ++ (s.drop scheme.length).takeWhile (fun c => !isDelim c) := by
  unfold matchScheme at h
  by_cases hpre : scheme.isPrefixOf s = true
  · rw [if_pos hpre] at h
    by_cases hb : ((s.drop scheme.length).takeWhile fun c => !isDelim c).isEmpty = true
    · simp [hb] at h
    · simp only [hb] at h
      refine ⟨List.isPrefixOf_iff_prefix.mp hpre, ?_, ?_⟩
      · intro hnil
        exact hb (by simp [hnil])
      · simpa using h.symm
  · rw [if_neg hpre] at h
    exact absurd h (by simp)

theorem matchScheme_of_prefix (scheme s body : List Char) (hne : body ≠ [])
    (hall : ∀ c ∈ body, isDelim c = false) (hpre : scheme ++ body <+: s) :
    ∃ m, matchScheme scheme s = some m ∧ (scheme ++ body).length ≤ m.length := by
  have hs : scheme <+: s := List.IsPrefix.trans (List.prefix_append _ _) hpre
  have hbody : body <+: s.drop scheme.length := by
    obtain ⟨t, rfl⟩ := hpre
    simp [List.append_assoc]
  have htw : body <+: (s.drop scheme.length).takeWhile (fun c => !isDelim c) :=
    prefix_takeWhile _ body _ hbody (fun c hc => by simp [hall c hc])
  have hnonempty : ¬ ((s.drop scheme.length).takeWhile fun c => !isDelim c).isEmpty = true := by
    intro he
    rw [List.isEmpty_iff] at he
    rw [he] at htw
    exact hne (List.prefix_nil.mp htw)
  refine ⟨scheme ++ (s.drop scheme.length).takeWhile (fun c => !isDelim c), ?_, ?_⟩
  · unfold matchScheme
    rw [if_pos (List.isPrefixOf_iff_prefix.mpr hs)]
    simp only [hnonempty]
    rfl
  · simp only [List.length_append]
    exact Nat.add_le_add_left htw.length_le _

theorem matchScheme_isURLText (scheme s m : List Char)
    (hs : scheme = "http://".toList ∨ scheme = "https://".toList)
    (h : matchScheme scheme s = some m) : IsURLText m ∧ m <+: s := by
  obtain ⟨hpre, hne, rfl⟩ := matchScheme_some scheme s m h
  refine ⟨⟨scheme, _, hs, hne, ?_, rfl⟩, ?_⟩
  · intro c hc
    have := List.mem_takeWhile_imp hc
    simpa using this
  · obtain ⟨t, ht⟩ := hpre
    have hd : s.drop scheme.length = t := by rw [← ht]; simp
    rw [hd]
    conv_rhs => rw [← ht]
    exact (List.prefix_append_right_inj scheme).mpr (List.takeWhile_prefix _)

theorem matchHere_some (s m : List Char) (h : matchHere s = some m) :
    IsURLText m ∧ m <+: s ∧ ∀ m', IsURLText m' → m' <+: s → m'.length ≤ m.length := by
  unfold matchHere at h
  cases hs : matchScheme "https://".toList s with
  | some m₁ =>
    rw [hs] at h
    simp only [Option.some.injEq] at h
    subst h
    obtain ⟨hurl, hpre⟩ := matchScheme_isURLText _ s m₁ (Or.inr rfl) hs
    refine ⟨hurl, hpre, ?_⟩
    rintro m' ⟨scheme, body, hsch, hne, hall, rfl⟩ hm'
    rcases hsch with rfl | rfl
    · exact absurd (schemes_exclusive s (List.IsPrefix.trans (List.prefix_append _ _) hm')
        (matchScheme_some _ s m₁ hs).1) id
    · obtain ⟨m₂, hm₂, hle⟩ := matchScheme_of_prefix _ s body hne hall hm'
      rw [hs] at hm₂
      simp only [Option.some.injEq] at hm₂
      subst hm₂
      exact hle
  | none =>
    rw [hs] at h
    simp only at h
    obtain ⟨hurl, hpre⟩ := matchScheme_isURLText _ s m (Or.inl rfl) h
    refine ⟨hurl, hpre, ?_⟩
    rintro m' ⟨scheme, body, hsch, hne, hall, rfl⟩ hm'
    rcases hsch with rfl | rfl
    · obtain ⟨m₂, hm₂, hle⟩ := matchScheme_of_prefix _ s body hne hall hm'
      rw [h] at hm₂
      simp only [Option.some.injEq] at hm₂
      subst hm₂
      exact hle
    · obtain ⟨m₂, hm₂, -⟩ := matchScheme_of_prefix _ s body hne hall hm'
      rw [hs] at hm₂
      exact absurd hm₂ (by simp)

theorem matchHere_none (s : List Char) (h : matchHere s = none) :
    ∀ m', IsURLText m' → ¬ m' <+: s := by
  rintro m' ⟨scheme, body, hsch, hne, hall, rfl⟩ hm'
  obtain ⟨m₂, hm₂, -⟩ := matchScheme_of_prefix _ s body hne hall hm'
  unfold matchHere at h
  rcases hsch with rfl | rfl
  · cases hs : matchScheme "https://".toList s with
    | some m₁ => rw [hs] at h; exact absurd h (by simp)
    | none =>
      rw [hs] at h
      simp only at h
      rw [h] at hm₂
      exact absurd hm₂ (by simp)
  · rw [hm₂] at h
    exact absurd h (by simp)

theorem isURLText_ne_nil (m : List Char) (h : IsURLText m) : m ≠ [] := by
  obtain ⟨scheme, body, -, hne, -, rfl⟩ := h
  intro hnil
  exact hne (List.append_eq_nil.mp hnil).2

theorem findString_spec (text : List Char) :
    IsFirstMatch text (findString text) ∨ (findString text = [] ∧ NoMatch text) := by
  induction text with
  | nil =>
    right
    refine ⟨rfl, ?_⟩
    rintro i m ⟨hurl, hpre⟩
    rw [List.drop_nil] at hpre
    exact isURLText_ne_nil m hurl (List.prefix_nil.mp hpre)
  | cons c cs ih =>
    cases hm : matchHere (c :: cs) with
    | some m =>
      left
      have hfs : findString (c :: cs) = m := by simp [findString, hm]
      rw [hfs]
      obtain ⟨hurl, hpre, hlong⟩ := matchHere_some _ m hm
      refine ⟨0, ⟨hurl, by simpa using hpre⟩, fun j _ _ => Nat.zero_le j, ?_⟩
      rintro m' ⟨hurl', hpre'⟩
      exact hlong m' hurl' (by simpa using hpre')
    | none =>
      have hfs : findString (c :: cs) = findString cs := by simp [findString, hm]
      rw [hfs]
      have hzero := matchHere_none _ hm
      rcases ih with ⟨i, ⟨hurl, hpre⟩, hleast, hlong⟩ | ⟨hnil, hno⟩
      · left
        refine ⟨i + 1, ⟨hurl, by simpa using hpre⟩, ?_, ?_⟩
        · rintro j m' ⟨hurl', hpre'⟩
          cases j with
          | zero => exact absurd (by simpa using hpre') (hzero m' hurl')
          | succ j' =>
            exact Nat.succ_le_succ (hleast j' m' ⟨hurl', by simpa using hpre'⟩)
        · rintro m' ⟨hurl', hpre'⟩
          exact hlong m' ⟨hurl', by simpa using hpre'⟩
      · right
        refine ⟨hnil, ?_⟩
        rintro j m' ⟨hurl', hpre'⟩
        cases j with
        | zero => exact hzero m' hurl' (by simpa using hpre')
        | succ j' => exact hno j' m' ⟨hurl', by simpa using hpre'⟩

/-! ## `json.Marshal` succeeds on encodable values -/

mutual

theorem marshal_of_encodable : (v : Value) → v.encodable = true → ∃ t, v.marshal = some t
  | .null, _ => ⟨_, rfl⟩
  | .bool _, _ => ⟨_, rfl⟩
  | .int _, _ => ⟨_, rfl⟩
  | .str _, _ => ⟨_, rfl⟩
  | .float f, h => by
    simp only [Value.encodable] at h
    exact Option.isSome_iff_exists.mp h
  | .arr xs, h => by
    simp only [Value.encodable] at h
    obtain ⟨ts, hts⟩ := marshalElems_of_encodable xs h
    exact ⟨'[' :: (joinComma ts ++ [']']), by simp only [Value.marshal, hts, Option.map_some']⟩
  | .obj kvs, h => by
    simp only [Value.encodable] at h
    obtain ⟨ms, hms⟩ := marshalMembers_of_encodable kvs h
    exact ⟨'{' :: (joinComma ((sortByKey ms).map renderMember) ++ ['}']),
      by simp only [Value.marshal, hms, Option.map_some']⟩

theorem marshalElems_of_encodable : (xs : List Value) →
    Value.encodable.encodableElems xs = true → ∃ ts, Value.marshal.marshalElems xs = some ts
  | [], _ => ⟨[], rfl⟩
  | x :: xs, h => by
    simp only [Value.encodable.encodableElems, Bool.and_eq_true] at h
    obtain ⟨t, ht⟩ := marshal_of_encodable x h.1
    obtain ⟨ts, hts⟩ := marshalElems_of_encodable xs h.2
    exact ⟨t :: ts, by simp only [Value.marshal.marshalElems, ht, hts]⟩

theorem marshalMembers_of_encodable : (kvs : List (String × Value)) →
    Value.encodable.encodableMembers kvs = true →
    ∃ ms, Value.marshal.marshalMembers kvs = some ms
  | [], _ => ⟨[], rfl⟩
  | (k, v) :: kvs, h => by
    simp only [Value.encodable.encodableMembers, Bool.and_eq_true] at h
    obtain ⟨t, ht⟩ := marshal_of_encodable v h.1
    obtain ⟨ms, hms⟩ := marshalMembers_of_encodable kvs h.2
    exact ⟨(k, t) :: ms, by simp only [Value.marshal.marshalMembers, ht, hms]⟩

end

/-- C2: the fallback of `extractURL`. When no candidate key holds a string
beginning with `http`, and the mapping is one `json.Marshal` can encode (as
every decoded response is), the mapping has a JSON serialization `text` and
`extractURL` returns the first match in `text` of `http://` or `https://`
followed by one or more characters that are neither white space
(`\t \n \f \r` or space) nor a quote (`"` or single quote): the match at the
least offset, extended as far as it goes; when the pattern matches nowhere in
`text` the result is the empty string. -/
theorem extractURL_fallback (data : GoMap)
    (hkeys : ∀ key ∈ candidateKeys, ∀ v : String,
      data.get key = some (.str v) → hasPrefix v "http" = false)
    (henc : Value.encodable (.obj data) = true) :
    ∃ text, Value.marshal (.obj data) = some text ∧
      (IsFirstMatch text (extractURL data).toList ∨ (extractURL data = "" ∧ NoMatch text)) := by
  obtain ⟨text, htext⟩ := marshal_of_encodable (.obj data) henc
  refine ⟨text, htext, ?_⟩
  by_cases hlen : data.length = 0
  · have hnil : data = [] := List.length_eq_zero.mp hlen
    subst hnil
    have ht : text = ['{', '}'] := by
      have : Value.marshal (.obj []) = some ['{', '}'] := by decide
      rw [this] at htext
      exact (Option.some.inj htext).symm
    subst ht
    right
    refine ⟨by simp [extractURL], ?_⟩
    rcases findString_spec ['{', '}'] with h | h
    · obtain ⟨i, ⟨hurl, -⟩, -⟩ := h
      exact absurd (by decide) (isURLText_ne_nil _ hurl)
    · exact h.2
  · have hex : extractURL data = String.mk (findString text) := by
      unfold extractURL
      rw [if_neg hlen, scanKeys_none data candidateKeys hkeys, htext]
    rw [hex]
    rcases findString_spec text with h | h
    · exact Or.inl h
    · right
      exact ⟨by rw [h.1], h.2⟩

/-- The examples of C2: the nested text gives `https://c/path` through the
fallback, and the empty mapping gives the empty string. -/
theorem extractURL_fallback_witness :
    extractURL [("foo", .obj [("nested", .str "see https://c/path for details")])] =
      "https://c/path" ∧
    IsFirstMatch
      "\x7b\"foo\":\x7b\"nested\":\"see https://c/path for details\"\x7d\x7d".toList
      "https://c/path".toList ∧
    extractURL [] = "" := by
  have h := extractURL_fallback
    [("foo", .obj [("nested", .str "see https://c/path for details")])]
    (by
      intro key hkey v hv
      simp only [candidateKeys, List.mem_cons, List.mem_singleton, List.not_mem_nil,
        or_false] at hkey
      rcases hkey with rfl | rfl | rfl | rfl | rfl <;>
        simp [GoMap.get_cons, GoMap.get_nil] at hv)
    (by decide)
  obtain ⟨text, htext, hmatch⟩ := h
  have ht : text =
      "\x7b\"foo\":\x7b\"nested\":\"see https://c/path for details\"\x7d\x7d".toList := by
    have hm : Value.marshal
        (.obj [("foo", .obj [("nested", .str "see https://c/path for details")])]) =
        some "\x7b\"foo\":\x7b\"nested\":\"see https://c/path for details\"\x7d\x7d".toList := by
      decide
    rw [hm] at htext
    exact (Option.some.inj htext).symm
  have hval : extractURL [("foo", .obj [("nested", .str "see https://c/path for details")])] =
      "https://c/path" := by decide
  refine ⟨hval, ?_, by decide⟩
  rw [hval, ht] at hmatch
  rcases hmatch with h | h
  · exact h
  · exact absurd h.1 (by decide)

/-! ## `callTool` -/

theorem callTool_sent (w : World) (c : Client) (toolName : String) (args : GoMap)
    (body : List Char) (hbody : (mkPayload w toolName args).marshal = some body)
    (hurl : w.validEndpoint c.Endpoint = true) :
    callTool w c toolName args =
      (classify w (w.roundTrip (mkRequest c body)), [mkRequest c body]) := by
  unfold callTool
  rw [hbody]
  simp only [hurl, if_true]

theorem callTool_sent_mem (w : World) (c : Client) (toolName : String) (args : GoMap)
    (req : Request) (hreq : req ∈ (callTool w c toolName args).2) :
    ∃ body, (mkPayload w toolName args).marshal = some body ∧ req = mkRequest c body := by
  unfold callTool at hreq
  cases hb : (mkPayload w toolName args).marshal with
  | none => rw [hb] at hreq; simp at hreq
  | some body =>
    rw [hb] at hreq
    by_cases hurl : w.validEndpoint c.Endpoint = true
    · simp only [hurl, if_true, List.mem_singleton] at hreq
      exact ⟨body, rfl, hreq⟩
    · simp [hurl] at hreq

/-- C3: response classification in `callTool`. When the request was sent and
answered with status `status` and body `respBody`: a status outside 200..299
gives the error carrying the status and the trimmed body, whatever the body
is; otherwise a body `json.Unmarshal` rejects gives the decode error; otherwise
a non-nil `error` member gives the RPC error with the remote code and message,
whatever `result` is; otherwise the `result` mapping is returned unchanged. -/
theorem callTool_classification (w : World) (c : Client) (toolName : String) (args : GoMap)
    (body : List Char) (status : Int) (respBody : String)
    (hbody : (mkPayload w toolName args).marshal = some body)
    (hurl : w.validEndpoint c.Endpoint = true)
    (hresp : w.roundTrip (mkRequest c body) =
      .ok { StatusCode := status, Body := .ok respBody }) :
    ((status < 200 ∨ 300 ≤ status) →
      (callTool w c toolName args).1 = .error (.httpStatus status (trimSpace respBody))) ∧
    ((200 ≤ status ∧ status < 300) →
      (∀ cause, w.unmarshal respBody = .error cause →
        (callTool w c toolName args).1 = .error (.decodeResponse cause)) ∧
      (∀ result e, w.unmarshal respBody = .ok { Result := result, Error := some e } →
        (callTool w c toolName args).1 = .error (.rpc e.Code e.Message)) ∧
      (∀ result, w.unmarshal respBody = .ok { Result := result, Error := none } →
        (callTool w c toolName args).1 = .ok result)) := by
  rw [callTool_sent w c toolName args body hbody hurl, hresp]
  constructor
  · intro hst
    have hst' : status < 200 ∨ status ≥ 300 := hst
    simp only [classify, hst', if_true]
  · rintro ⟨hlo, hhi⟩
    have hst : ¬ (status < 200 ∨ status ≥ 300) := by
      intro h
      rcases h with h | h
      · exact absurd hlo (not_le.mpr h)
      · exact absurd hhi (not_lt.mpr h)
    refine ⟨?_, ?_, ?_⟩
    · intro cause hc
      simp only [classify, hst, if_false, hc]
    · intro result e hc
      simp only [classify, hst, if_false, hc]
    · intro result hc
      simp only [classify, hst, if_false, hc]

/-- The examples of C3: status 500 keeps the status and the trimmed body; the
error object gives RPC error 42 `bad`; malformed JSON under status 200 gives
the decode error; a result under status 200 is returned. -/
theorem callTool_classification_witness :
    (callTool (exampleWorld 500 " oops\n") (NewClient "" "") "create-recipe" []).1 =
      .error (.httpStatus 500 "oops") ∧
    (callTool (exampleWorld 200 errorBody) (NewClient "" "") "create-recipe" []).1 =
      .error (.rpc 42 "bad") ∧
    (callTool (exampleWorld 200 "oops") (NewClient "" "") "create-recipe" []).1 =
      .error (.decodeResponse "invalid character") ∧
    (callTool (exampleWorld 200 resultBody) (NewClient "" "") "create-recipe" []).1 =
      .ok [("url", .str "https://instacart.com/r/123")] := by
  have hbody : ∀ st b, (mkPayload (exampleWorld st b) "create-recipe" []).marshal =
      some ((mkPayload (exampleWorld 200 "") "create-recipe" []).marshal.getD []) := by
    intro st b
    rfl
  refine ⟨?_, ?_, ?_, ?_⟩
  · exact (callTool_classification (exampleWorld 500 " oops\n") (NewClient "" "")
      "create-recipe" [] _ 500 " oops\n" (hbody _ _) rfl rfl).1 (Or.inr (by decide))
  · exact ((callTool_classification (exampleWorld 200 errorBody) (NewClient "" "")
      "create-recipe" [] _ 200 errorBody (hbody _ _) rfl rfl).2 ⟨by decide, by decide⟩).2.1
      [] ⟨42, "bad"⟩ rfl
  · exact ((callTool_classification (exampleWorld 200 "oops") (NewClient "" "")
      "create-recipe" [] _ 200 "oops" (hbody _ _) rfl rfl).2 ⟨by decide, by decide⟩).1
      "invalid character" rfl
  · exact ((callTool_classification (exampleWorld 200 resultBody) (NewClient "" "")
      "create-recipe" [] _ 200 resultBody (hbody _ _) rfl rfl).2 ⟨by decide, by decide⟩).2.2
      [("url", .str "https://instacart.com/r/123")] rfl

/-! ## The envelope -/

theorem rpcRequest_marshal_text (p : rpcRequest) (body : List Char)
    (h : p.marshal = some body) :
    ∃ arguments, Value.marshal (.obj p.Params.Arguments) = some arguments ∧
      body = "\x7b\"jsonrpc\":".toList ++ quoteJSON p.JSONRPC ++ ",\"method\":".toList ++
        quoteJSON p.Method ++ ",\"params\":\x7b\"name\":".toList ++ quoteJSON p.Params.Name ++
        ",\"arguments\":".toList ++ arguments ++ "\x7d,\"id\":".toList ++ quoteJSON p.ID ++
        "\x7d".toList := by
  unfold rpcRequest.marshal at h
  cases ha : Value.marshal (.obj p.Params.Arguments) with
  | none => rw [ha] at h; simp at h
  | some arguments =>
    rw [ha] at h
    simp only [Option.map_some', Option.some.injEq] at h
    refine ⟨arguments, rfl, ?_⟩
    rw [← h]
    have e₁ : quoteJSON "jsonrpc" = "\"jsonrpc\"".toList := by decide
    have e₂ : quoteJSON "method" = "\"method\"".toList := by decide
    have e₃ : quoteJSON "params" = "\"params\"".toList := by decide
    have e₄ : quoteJSON "id" = "\"id\"".toList := by decide
    have e₅ : quoteJSON "name" = "\"name\"".toList := by decide
    have e₆ : quoteJSON "arguments" = "\"arguments\"".toList := by decide
    simp only [List.map, joinComma, renderMember, e₁, e₂, e₃, e₄, e₅, e₆]
    simp [String.toList]

theorem CreateRecipe_eq (w : World) (c : Client) (recipe : Recipe) :
    CreateRecipe w c recipe =
      (Except.map extractURL (callTool w c "create-recipe" (recipeArgs recipe)).1,
        (callTool w c "create-recipe" (recipeArgs recipe)).2) := by
  unfold CreateRecipe
  cases callTool w c "create-recipe" (recipeArgs recipe) with
  | mk res sent =>
    cases res with
    | error err => rfl
    | ok result => rfl

theorem CreateShoppingList_eq (w : World) (c : Client) (list : ShoppingList) (largs : GoMap)
    (h : listArgs list = some largs) :
    CreateShoppingList w c list =
      some (Except.map extractURL (callTool w c "create-shopping-list" largs).1,
        (callTool w c "create-shopping-list" largs).2) := by
  unfold CreateShoppingList
  simp only [h]
  cases callTool w c "create-shopping-list" largs with
  | mk res sent =>
    cases res with
    | error err => rfl
    | ok result => rfl

/-- C8: the envelope. The payload `callTool` builds has `jsonrpc = "2.0"`,
`method = "tools/call"`, `params.name` the tool name and `params.arguments` the
argument mapping unchanged; every request `callTool` sends carries the JSON
text of that payload, with those members written in it; when the payload can
be encoded and the endpoint is accepted, that request is sent. Every request
`CreateRecipe` sends is that of tool `create-recipe` with the recipe's
argument mapping, and every request `CreateShoppingList` sends that of tool
`create-shopping-list` with the list's argument mapping. -/
theorem envelope_shape (w : World) (c : Client) (toolName : String) (args : GoMap)
    (recipe : Recipe) (list : ShoppingList) :
    (mkPayload w toolName args).JSONRPC = "2.0" ∧
    (mkPayload w toolName args).Method = "tools/call" ∧
    (mkPayload w toolName args).Params.Name = toolName ∧
    (mkPayload w toolName args).Params.Arguments = args ∧
    (∀ req ∈ (callTool w c toolName args).2,
      ∃ body arguments, (mkPayload w toolName args).marshal = some body ∧
        Value.marshal (.obj args) = some arguments ∧
        req = mkRequest c body ∧
        body = "\x7b\"jsonrpc\":\"2.0\",\"method\":\"tools/call\",\"params\":\x7b\"name\":".toList ++
          quoteJSON toolName ++ ",\"arguments\":".toList ++ arguments ++
          "\x7d,\"id\":".toList ++ quoteJSON ("instacart-cli-" ++ toString w.now) ++
          "\x7d".toList) ∧
    (∀ body, (mkPayload w toolName args).marshal = some body →
      w.validEndpoint c.Endpoint = true →
      (callTool w c toolName args).2 = [mkRequest c body]) ∧
    (CreateRecipe w c recipe).2 = (callTool w c "create-recipe" (recipeArgs recipe)).2 ∧
    (∃ largs out, listArgs list = some largs ∧ CreateShoppingList w c list = some out ∧
      out.2 = (callTool w c "create-shopping-list" largs).2) := by
  refine ⟨rfl, rfl, rfl, rfl, ?_, ?_, ?_, ?_⟩
  · intro req hreq
    obtain ⟨body, hbody, hr⟩ := callTool_sent_mem w c toolName args req hreq
    obtain ⟨arguments, harg, htext⟩ := rpcRequest_marshal_text _ body hbody
    refine ⟨body, arguments, hbody, harg, hr, ?_⟩
    rw [htext]
    have e₁ : quoteJSON "2.0" = "\"2.0\"".toList := by decide
    have e₂ : quoteJSON "tools/call" = "\"tools/call\"".toList := by decide
    simp only [mkPayload, e₁, e₂]
    simp [String.toList]
  · intro body hbody hurl
    rw [callTool_sent w c toolName args body hbody hurl]
  · rw [CreateRecipe_eq]
  · obtain ⟨largs, hl, -⟩ := listArgs_eq list
    exact ⟨largs, _, hl, CreateShoppingList_eq w c list largs hl, rfl⟩

/-- The end-to-end scenario as a case of C8: the one request sent for the
Tacos recipe, and the URL that comes back. -/
theorem envelope_shape_witness :
    (CreateRecipe (exampleWorld 200 resultBody) (NewClient "" "") tacos).1 =
      .ok "https://instacart.com/r/123" ∧
    ((CreateRecipe (exampleWorld 200 resultBody) (NewClient "" "") tacos).2.map
        fun req => req.body) =
      ["\x7b\"jsonrpc\":\"2.0\",\"method\":\"tools/call\",\"params\":\x7b\"name\":\"create-recipe\",\"arguments\":\x7b\"ingredients\":[\x7b\"name\":\"Tortilla\",\"quantity\":8,\"unit\":\"count\"\x7d],\"title\":\"Tacos\"\x7d\x7d,\"id\":\"instacart-cli-1700000000\"\x7d"] := by
  have h := (envelope_shape (exampleWorld 200 resultBody) (NewClient "" "") "create-recipe"
    (recipeArgs tacos) tacos emptyList).2.2.2.2.2.2.1
  refine ⟨rfl, ?_⟩
  rw [h]
  rfl

/-! ## The client does not check the collection; the commands do -/

theorem encodableMembers_set (m : GoMap) (k : String) (v : Value)
    (hm : Value.encodable.encodableMembers m = true) (hv : v.encodable = true) :
    Value.encodable.encodableMembers (GoMap.set m k v) = true := by
  induction m with
  | nil => simp [GoMap.set, Value.encodable.encodableMembers, hv]
  | cons kv m ih =>
    obtain ⟨k₁, v₁⟩ := kv
    simp only [Value.encodable.encodableMembers, Bool.and_eq_true] at hm
    by_cases h₁ : k₁ = k
    · simp [GoMap.set, h₁, Value.encodable.encodableMembers, hv, hm.2]
    · simp [GoMap.set, h₁, Value.encodable.encodableMembers, hm.1, ih hm.2]

theorem encodableMembers_ite_set (c : Prop) [Decidable c] (m : GoMap) (k : String) (v : Value)
    (hm : Value.encodable.encodableMembers m = true) (hv : v.encodable = true) :
    Value.encodable.encodableMembers (if c then GoMap.set m k v else m) = true := by
  by_cases hc : c
  · simpa [hc] using encodableMembers_set m k v hm hv
  · simpa [hc] using hm

theorem encodableElems_strs (l : List String) :
    Value.encodable.encodableElems (l.map Value.str) = true := by
  induction l with
  | nil => rfl
  | cons s l ih => simp [Value.encodable.encodableElems, Value.encodable, ih]

theorem recipeArgs_encodable (recipe : Recipe) (h : recipe.Ingredients = []) :
    Value.encodable (.obj (recipeArgs recipe)) = true := by
  simp only [recipeArgs, Value.encodable, h, List.map_nil]
  refine encodableMembers_ite_set _ _ _ _ (encodableMembers_ite_set _ _ _ _
    (encodableMembers_ite_set _ _ _ _ (encodableMembers_ite_set _ _ _ _
    (encodableMembers_ite_set _ _ _ _ ?_ ?_) ?_) ?_) ?_) ?_ <;>
    simp [Value.encodable, Value.encodable.encodableMembers, Value.encodable.encodableElems,
      encodableElems_strs]

theorem pantry_step (base : GoMap) (p : Bool)
    (henc : Value.encodable.encodableMembers base = true)
    (hnone : base.get "landingPageConfiguration" = none) :
    ∃ largs, (if p = true then enablePantry base else some base) = some largs ∧
      Value.encodable (.obj largs) = true := by
  by_cases hp : p = true
  · refine ⟨_, by rw [if_pos hp]; exact enablePantry_fresh base hnone, ?_⟩
    simp only [Value.encodable]
    exact encodableMembers_set _ _ _ henc
      (by simp [Value.encodable, Value.encodable.encodableMembers])
  · exact ⟨base, by rw [if_neg hp], by simpa [Value.encodable] using henc⟩

theorem listArgs_encodable (list : ShoppingList) (h : list.LineItems = []) :
    ∃ largs, listArgs list = some largs ∧ Value.encodable (.obj largs) = true := by
  simp only [listArgs, h, List.map_nil]
  apply pantry_step
  · refine encodableMembers_ite_set _ _ _ _ (encodableMembers_ite_set _ _ _ _ ?_ ?_) ?_ <;>
      simp [Value.encodable, Value.encodable.encodableMembers, Value.encodable.encodableElems]
  · simp only [GoMap.get_ite_set, GoMap.get_cons, GoMap.get_nil]
    simp

theorem payload_marshal_of_encodable (w : World) (toolName : String) (args : GoMap)
    (h : Value.encodable (.obj args) = true) :
    ∃ body, (mkPayload w toolName args).marshal = some body := by
  obtain ⟨t, ht⟩ := marshal_of_encodable (.obj args) h
  unfold rpcRequest.marshal mkPayload
  simp only [ht, Option.map_some']
  exact ⟨_, rfl⟩

/-- C6 as the code has it: the client does not check the collection. For a
recipe without ingredients (a list without line items) and an endpoint the
HTTP library accepts, the argument mapping carries `ingredients` (`lineItems`)
as the empty sequence, the payload is encoded, exactly one request carrying it
is handed to the transport, and the outcome is the one the transport's answer
classifies to. -/
theorem client_sends_empty_collection (w : World) (c : Client) (recipe : Recipe)
    (list : ShoppingList) (hr : recipe.Ingredients = []) (hl : list.LineItems = [])
    (hurl : w.validEndpoint c.Endpoint = true) :
    (∃ body, (mkPayload w "create-recipe" (recipeArgs recipe)).marshal = some body ∧
      (recipeArgs recipe).get "ingredients" = some (.arr []) ∧
      CreateRecipe w c recipe =
        (Except.map extractURL (classify w (w.roundTrip (mkRequest c body))),
          [mkRequest c body])) ∧
    (∃ largs body, listArgs list = some largs ∧
      (mkPayload w "create-shopping-list" largs).marshal = some body ∧
      largs.get "lineItems" = some (.arr []) ∧
      CreateShoppingList w c list =
        some (Except.map extractURL (classify w (w.roundTrip (mkRequest c body))),
          [mkRequest c body])) := by
  constructor
  · obtain ⟨body, hbody⟩ :=
      payload_marshal_of_encodable w "create-recipe" _ (recipeArgs_encodable recipe hr)
    refine ⟨body, hbody, ?_, ?_⟩
    · have := (recipeArgs_get recipe).2.2.2.2.2.1
      simpa [hr] using this
    · rw [CreateRecipe_eq, callTool_sent w c _ _ body hbody hurl]
  · obtain ⟨largs, hlargs, henc⟩ := listArgs_encodable list hl
    obtain ⟨body, hbody⟩ := payload_marshal_of_encodable w "create-shopping-list" _ henc
    refine ⟨largs, body, hlargs, hbody, ?_, ?_⟩
    · obtain ⟨largs', hlargs', -, -, hitems, -⟩ := listArgs_eq list
      rw [hlargs] at hlargs'
      cases hlargs'
      simpa [hl] using hitems
    · rw [CreateShoppingList_eq w c list largs hlargs, callTool_sent w c _ _ body hbody hurl]

/-- A concrete case of the amended C6: the recipe without ingredients is sent
as `"ingredients":[]`. -/
theorem client_sends_empty_collection_witness :
    ∃ body, (mkPayload (exampleWorld 200 resultBody) "create-recipe"
        (recipeArgs emptyRecipe)).marshal = some body ∧
      (recipeArgs emptyRecipe).get "ingredients" = some (.arr []) ∧
      (CreateRecipe (exampleWorld 200 resultBody) (NewClient "" "") emptyRecipe).2 =
        [mkRequest (NewClient "" "") body] := by
  obtain ⟨body, hbody, hget, hrun⟩ := (client_sends_empty_collection
    (exampleWorld 200 resultBody) (NewClient "" "") emptyRecipe emptyList rfl rfl rfl).1
  exact ⟨body, hbody, hget, by rw [hrun]⟩

/-- C6 fails on the code: for the recipe without ingredients and the list
without line items, the client returns no error at all and one request
reaches the transport. -/
theorem client_does_not_validate :
    emptyRecipe.Ingredients = [] ∧
    (CreateRecipe (exampleWorld 200 resultBody) (NewClient "" "") emptyRecipe).1 =
      .ok "https://instacart.com/r/123" ∧
    (CreateRecipe (exampleWorld 200 resultBody) (NewClient "" "") emptyRecipe).2.length = 1 ∧
    emptyList.LineItems = [] ∧
    (CreateShoppingList (exampleWorld 200 resultBody) (NewClient "" "") emptyList).map
      (fun out => out.1) = some (.ok "https://instacart.com/r/123") ∧
    (CreateShoppingList (exampleWorld 200 resultBody) (NewClient "" "") emptyList).map
      (fun out => out.2.length) = some 1 :=
  ⟨rfl, rfl, rfl, rfl, rfl, rfl⟩

/-! ## The commands -/

/-- C7: on the command-line path an empty collection never reaches the
network. Whenever the record `runRecipe` assembled, from the flags or from a
JSON document, has no ingredients, `runRecipe` returns the error
`at least one ingredient is required` and no request is sent; likewise
`runList` returns `at least one item is required` for a list without line
items. In particular: a title and no `--ingredient` / `--item` flag, and a
document that decodes to a record with an empty collection. And whenever a
request is sent, the assembled record has at least one entry. -/
theorem empty_collection_never_sent (env : Env) (w : World) :
    (∀ flags args recipe, assembleRecipe env flags args = .ok recipe →
      recipe.Ingredients = [] → runRecipe env w flags args = (.error .noIngredients, [])) ∧
    (∀ flags args list, assembleList env flags args = .ok list →
      list.LineItems = [] → runList env w flags args = some (.error .noItems, [])) ∧
    (∀ (flags : RecipeFlags) title rest, flags.file = "" → flags.ingredients = [] →
      runRecipe env w flags (title :: rest) = (.error .noIngredients, [])) ∧
    (∀ (flags : ListFlags) title rest, flags.file = "" → flags.items = [] →
      runList env w flags (title :: rest) = some (.error .noItems, [])) ∧
    (∀ (flags : RecipeFlags) args data recipe, flags.file ≠ "" →
      env.readFile (if flags.file = "-" then "/dev/stdin" else flags.file) = .ok data →
      env.unmarshalRecipe data = .ok recipe → recipe.Ingredients = [] →
      runRecipe env w flags args = (.error .noIngredients, [])) ∧
    (∀ (flags : ListFlags) args data list, flags.file ≠ "" →
      env.readFile (if flags.file = "-" then "/dev/stdin" else flags.file) = .ok data →
      env.unmarshalList data = .ok list → list.LineItems = [] →
      runList env w flags args = some (.error .noItems, [])) ∧
    (∀ flags args, (runRecipe env w flags args).2 ≠ [] →
      ∃ recipe, assembleRecipe env flags args = .ok recipe ∧ recipe.Ingredients ≠ []) ∧
    (∀ flags args out, runList env w flags args = some out → out.2 ≠ [] →
      ∃ list, assembleList env flags args = .ok list ∧ list.LineItems ≠ []) := by
  have hR : ∀ flags args recipe, assembleRecipe env flags args = .ok recipe →
      recipe.Ingredients = [] → runRecipe env w flags args = (.error .noIngredients, []) := by
    intro flags args recipe ha hempty
    unfold runRecipe
    simp [ha, hempty]
  have hL : ∀ flags args list, assembleList env flags args = .ok list →
      list.LineItems = [] → runList env w flags args = some (.error .noItems, []) := by
    intro flags args list ha hempty
    unfold runList
    simp [ha, hempty]
  refine ⟨hR, hL, ?_, ?_, ?_, ?_, ?_, ?_⟩
  · intro flags title rest hfile hing
    apply hR flags _ { Title := title, Servings := flags.servings, Author := flags.author
                       CookingTime := flags.cookingTime, ImageURL := flags.imageURL
                       Instructions := flags.instructions, Ingredients := [] }
    · simp [assembleRecipe, hfile, hing, parseIngredients]
    · rfl
  · intro flags title rest hfile hitems
    apply hL flags _ { Title := title, ExpiresIn := flags.expires, ImageURL := flags.imageURL
                       EnablePantry := flags.pantry, LineItems := [] }
    · simp [assembleList, hfile, hitems, parseLineItems]
    · rfl
  · intro flags args data recipe hfile hread hdec hempty
    apply hR flags args recipe _ hempty
    unfold assembleRecipe
    rw [if_pos hfile, hread]
    simp only [hdec]
  · intro flags args data list hfile hread hdec hempty
    apply hL flags args list _ hempty
    unfold assembleList
    rw [if_pos hfile, hread]
    simp only [hdec]
  · intro flags args hsent
    cases ha : assembleRecipe env flags args with
    | error err => simp [runRecipe, ha] at hsent
    | ok recipe =>
      refine ⟨recipe, rfl, ?_⟩
      intro hempty
      rw [hR flags args recipe ha hempty] at hsent
      exact hsent rfl
  · intro flags args out hout hsent
    cases ha : assembleList env flags args with
    | error err =>
      simp only [runList, ha, Option.some.injEq] at hout
      subst hout
      exact absurd rfl hsent
    | ok list =>
      refine ⟨list, rfl, ?_⟩
      intro hempty
      rw [hL flags args list ha hempty] at hout
      simp only [Option.some.injEq] at hout
      subst hout
      exact hsent rfl

/-- Concrete cases of C7: a title without `--ingredient`, a document without
ingredients, and the same two for `list`; none sends a request. -/
theorem empty_collection_never_sent_witness :
    runRecipe exampleEnv (exampleWorld 200 resultBody) noRecipeFlags ["Soup"] =
      (.error .noIngredients, []) ∧
    runRecipe exampleEnv (exampleWorld 200 resultBody) { noRecipeFlags with file := "-" } [] =
      (.error .noIngredients, []) ∧
    runList exampleEnv (exampleWorld 200 resultBody) noListFlags ["Party"] =
      some (.error .noItems, []) ∧
    runList exampleEnv (exampleWorld 200 resultBody) { noListFlags with file := "l.json" } [] =
      some (.error .noItems, []) := by
  obtain ⟨-, -, h₁, h₂, h₃, h₄, -, -⟩ :=
    empty_collection_never_sent exampleEnv (exampleWorld 200 resultBody)
  exact ⟨h₁ noRecipeFlags "Soup" [] rfl rfl,
    h₃ { noRecipeFlags with file := "-" } [] _ _ (by decide) rfl rfl rfl,
    h₂ noListFlags "Party" [] rfl rfl,
    h₄ { noListFlags with file := "l.json" } [] _ _ (by decide) rfl rfl rfl⟩

/-! ## `parseIngredient` and `parseLineItem` -/

theorem splitNComma_three (s : List Char) :
    (afterSecondComma s = none →
      ∃ tail, splitNComma 3 s = beforeComma s :: tail ∧ tail.length < 2) ∧
    (∀ t, afterSecondComma s = some t → ∃ mid, splitNComma 3 s = [beforeComma s, mid, t]) := by
  have hs : s.takeWhile (fun c => c != ',') ++ s.dropWhile (fun c => c != ',') = s :=
    List.takeWhile_append_dropWhile _ _
  cases h₁ : s.dropWhile (fun c => c != ',') with
  | nil =>
    have hb : beforeComma s = s := by
      unfold beforeComma
      rw [h₁, List.append_nil] at hs
      exact hs
    have hsplit : splitNComma 3 s = [s] := by
      simp [splitNComma, List.span_eq_take_drop, h₁]
    constructor
    · intro _
      exact ⟨[], by rw [hsplit, hb], by simp⟩
    · intro t ht
      simp [afterSecondComma, afterComma, h₁] at ht
  | cons c rest =>
    cases h₂ : rest.dropWhile (fun c => c != ',') with
    | nil =>
      have hsplit : splitNComma 3 s = [beforeComma s, rest] := by
        simp [splitNComma, List.span_eq_take_drop, h₁, h₂, beforeComma]
      constructor
      · intro _
        exact ⟨[rest], hsplit, by simp⟩
      · intro t ht
        simp [afterSecondComma, afterComma, h₁, h₂] at ht
    | cons c' rest' =>
      have hsplit : splitNComma 3 s =
          [beforeComma s, rest.takeWhile (fun c => c != ','), rest'] := by
        simp [splitNComma, List.span_eq_take_drop, h₁, h₂, beforeComma]
      constructor
      · intro hn
        simp [afterSecondComma, afterComma, h₁, h₂] at hn
      · intro t ht
        simp [afterSecondComma, afterComma, h₁, h₂] at ht
        subst ht
        exact ⟨_, hsplit⟩

theorem splitN3_shape (raw : String) :
    (afterSecondComma raw.data = none ∧
      ∃ tail : List String, splitN3 raw = String.mk (beforeComma raw.data) :: tail ∧
        tail.length < 2) ∨
    (∃ t mid, afterSecondComma raw.data = some t ∧
      splitN3 raw = [String.mk (beforeComma raw.data), mid, String.mk t]) := by
  obtain ⟨hnone, hsome⟩ := splitNComma_three raw.data
  cases h : afterSecondComma raw.data with
  | none =>
    left
    obtain ⟨tail, ht, hlen⟩ := hnone h
    refine ⟨rfl, tail.map String.mk, ?_, by simpa using hlen⟩
    simp only [splitN3, String.toList, ht, List.map]
  | some t =>
    right
    obtain ⟨mid, hm⟩ := hsome t h
    refine ⟨t, String.mk mid, rfl, ?_⟩
    simp only [splitN3, String.toList, hm, List.map]

/-- C10: parsing of a `name,qty,unit` value. With `name` the trimmed text
before the first comma and `unit` the trimmed text after the second comma
(empty when there is no second comma), `parseIngredient` and `parseLineItem`
each return an error iff `name` is empty, and otherwise succeed with that
name, that unit, an empty `displayText` and some quantity; so the two agree on
the error condition, the name and the unit. -/
theorem parse_name_qty_unit (env : Env) (raw : String) :
    ((∃ err, parseIngredient env raw = .error err) ↔
      trimSpace (String.mk (beforeComma raw.toList)) = "") ∧
    ((∃ err, parseLineItem env raw = .error err) ↔
      trimSpace (String.mk (beforeComma raw.toList)) = "") ∧
    (trimSpace (String.mk (beforeComma raw.toList)) ≠ "" →
      (∃ q, parseIngredient env raw = .ok
        { Name := trimSpace (String.mk (beforeComma raw.toList)), Quantity := q
          Unit := (match afterSecondComma raw.toList with
            | some t => trimSpace (String.mk t)
            | none => "")
          DisplayText := "" }) ∧
      (∃ q, parseLineItem env raw = .ok
        { Name := trimSpace (String.mk (beforeComma raw.toList)), Quantity := q
          Unit := (match afterSecondComma raw.toList with
            | some t => trimSpace (String.mk t)
            | none => "")
          DisplayText := "" })) := by
  simp only [String.toList]
  have hI : trimSpace (String.mk (beforeComma raw.data)) = "" →
      parseIngredient env raw = .error (.invalidIngredient raw) := by
    intro hname
    rcases splitN3_shape raw with ⟨-, tail, hparts, -⟩ | ⟨t, mid, -, hparts⟩ <;>
      simp [parseIngredient, hparts, hname]
  have hL : trimSpace (String.mk (beforeComma raw.data)) = "" →
      parseLineItem env raw = .error (.invalidItem raw) := by
    intro hname
    rcases splitN3_shape raw with ⟨-, tail, hparts, -⟩ | ⟨t, mid, -, hparts⟩ <;>
      simp [parseLineItem, hparts, hname]
  have hok : trimSpace (String.mk (beforeComma raw.data)) ≠ "" →
      (∃ q, parseIngredient env raw = .ok
        { Name := trimSpace (String.mk (beforeComma raw.data)), Quantity := q
          Unit := (match afterSecondComma raw.data with
            | some t => trimSpace (String.mk t)
            | none => "")
          DisplayText := "" }) ∧
      (∃ q, parseLineItem env raw = .ok
        { Name := trimSpace (String.mk (beforeComma raw.data)), Quantity := q
          Unit := (match afterSecondComma raw.data with
            | some t => trimSpace (String.mk t)
            | none => "")
          DisplayText := "" }) := by
    intro hname
    rcases splitN3_shape raw with ⟨hnone, tail, hparts, hlen⟩ | ⟨t, mid, hsome, hparts⟩
    · rw [hnone]
      rcases tail with _ | ⟨p₁, _ | ⟨p₂, tl⟩⟩
      · constructor
        · exact ⟨Float64.zero, by simp [parseIngredient, hparts, hname]⟩
        · exact ⟨Float64.zero, by simp [parseLineItem, hparts, hname]⟩
      · constructor
        · cases hq : env.parseFloat (trimSpace p₁) with
          | none => exact ⟨Float64.zero, by simp [parseIngredient, hparts, hname, hq]⟩
          | some q => exact ⟨q, by simp [parseIngredient, hparts, hname, hq]⟩
        · by_cases hq : trimSpace p₁ = ""
          · exact ⟨Float64.zero, by simp [parseLineItem, hparts, hname, hq]⟩
          · exact ⟨env.sscanFloat (trimSpace p₁), by simp [parseLineItem, hparts, hname, hq]⟩
      · simp only [List.length_cons] at hlen
        omega
    · rw [hsome]
      constructor
      · cases hq : env.parseFloat (trimSpace mid) with
        | none => exact ⟨Float64.zero, by simp [parseIngredient, hparts, hname, hq]⟩
        | some q => exact ⟨q, by simp [parseIngredient, hparts, hname, hq]⟩
      · by_cases hq : trimSpace mid = ""
        · exact ⟨Float64.zero, by simp [parseLineItem, hparts, hname, hq]⟩
        · exact ⟨env.sscanFloat (trimSpace mid), by simp [parseLineItem, hparts, hname, hq]⟩
  refine ⟨⟨?_, fun h => ⟨_, hI h⟩⟩, ⟨?_, fun h => ⟨_, hL h⟩⟩, hok⟩
  · rintro ⟨err, herr⟩
    by_contra hname
    obtain ⟨⟨q, hq⟩, -⟩ := hok hname
    rw [hq] at herr
    exact absurd herr (by simp)
  · rintro ⟨err, herr⟩
    by_contra hname
    obtain ⟨-, ⟨q, hq⟩⟩ := hok hname
    rw [hq] at herr
    exact absurd herr (by simp)

/-- Concrete cases of C10: a unit that contains a comma, a value without a
second comma, and a blank name. -/
theorem parse_name_qty_unit_witness :
    parseIngredient exampleEnv " salt , 1, tsp,heaped " =
      .ok { Name := "salt", Quantity := Float64.zero, Unit := "tsp,heaped", DisplayText := "" } ∧
    parseLineItem exampleEnv "milk,2" =
      .ok { Name := "milk", Quantity := Float64.zero, Unit := "", DisplayText := "" } ∧
    (∃ err, parseIngredient exampleEnv " ,1,cup" = .error err) ∧
    (∃ err, parseLineItem exampleEnv " ,1,cup" = .error err) := by
  have h₁ := (parse_name_qty_unit exampleEnv " salt , 1, tsp,heaped ").2.2 (by decide)
  have h₂ := (parse_name_qty_unit exampleEnv "milk,2").2.2 (by decide)
  have h₃ := (parse_name_qty_unit exampleEnv " ,1,cup").1.mpr (by decide)
  have h₄ := (parse_name_qty_unit exampleEnv " ,1,cup").2.1.mpr (by decide)
  exact ⟨rfl, rfl, h₃, h₄⟩

/-! ## `extractURL` returns text of the serialization -/

/-- C9 at the failing input: for the result `link = https://a.example/?x=1&y=2`
the fallback returns the text `https://a.example/?x=1\u0026y=2` of the
serialization, in which `&` is written as the six characters `\u0026`; that
text occurs in no string of the mapping, neither the key nor the value. -/
theorem extractURL_returns_escaped_text :
    extractURL [("link", .str "https://a.example/?x=1&y=2")] =
      "https://a.example/?x=1\\u0026y=2" ∧
    (∀ s ∈ Value.strings (.obj [("link", .str "https://a.example/?x=1&y=2")]),
      containsText s (extractURL [("link", .str "https://a.example/?x=1&y=2")]) = false) := by
  decide

end Instacart
